import Mathlib

/-!
Verification of the GitHub-API sync engine (Obsidian plugin).

Shallow embedding of the reconciliation core:
* `DefaultConflictResolver` (src/core/conflict-resolver.ts): `normalizeReason`,
  `buildRecord`, `resolvePreferLocal`, `resolvePreferRemote`, `resolve`.
* `DefaultSyncPlanner` (src/core/sync-planner.ts): `hasLocalChanged`,
  `hasRemoteChanged`, rename detection and matching, the mass-deletion guard
  and the per-path three-way diff of `plan`.
* `DefaultSyncEngine` (src/core/sync-engine.ts): `buildBaseline`, the batched
  remote write-set computation of `executeOps`, the `runOp` failure
  aggregation, the control flow of `sync`, `nextConflictPath`,
  `formatTimestamp` and `applyKeepBothConflicts`.

JavaScript `Record<string, T>` objects are modelled as insertion-ordered
association lists `List (String × T)` with unique keys (JS objects cannot
hold duplicate keys; where a count or a first-match order depends on it, the
theorems carry explicit `Nodup` hypotheses).  JS `Set` objects are modelled
as insertion-ordered duplicate-free lists.  JS truthiness of the optional
baseline fields (`undefined`, `""` and `0` are falsy) is modelled by
`strTruthy`/`natTruthy`.
-/

namespace GHSync

/-- JS truthiness of a `string | undefined` value: `undefined` and `""` are falsy. -/
def strTruthy : Option String → Bool
  | none => false
  | some s => !(s == "")

/-- JS truthiness of a `number | undefined` value: `undefined` and `0` are falsy. -/
def natTruthy : Option Nat → Bool
  | none => false
  | some n => !(n == 0)

/-- Association-list lookup, the model of `obj[path]` on a JS record. -/
def alookup {α : Type} (l : List (String × α)) (p : String) : Option α :=
  match l with
  | [] => none
  | (q, v) :: rest => if q = p then some v else alookup rest p

/-- Key-presence test, the model of the truthiness test `obj[path]`. -/
def containsKey {α : Type} (l : List (String × α)) (p : String) : Bool :=
  (alookup l p).isSome

/-- `Set.add`: append the element unless it is already present. -/
def insertOnce (l : List String) (p : String) : List String :=
  if l.contains p then l else l ++ [p]

/-- `new Set([...xs])`: first-occurrence deduplication in insertion order. -/
def setOfList (ps : List String) : List String :=
  ps.foldl insertOnce []

/-! ### Data model (src/types/sync-types.ts) -/

/-- `LocalEntry = {path, hash, mtime, size}`. -/
structure LocalEntry where
  path : String
  hash : String
  mtime : Nat
  size : Nat
deriving DecidableEq, Repr

/-- `RemoteEntry = {path, sha, size, lastCommitTime}`. -/
structure RemoteEntry where
  path : String
  sha : String
  size : Nat
  lastCommitTime : Nat
deriving DecidableEq, Repr

/-- `BaselineEntry = {path, hash?, sha?, mtime?, lastCommitTime?}`. -/
structure BaselineEntry where
  path : String
  hash : Option String
  sha : Option String
  mtime : Option Nat
  lastCommitTime : Option Nat
deriving DecidableEq, Repr

/-- `LocalIndex = Record<string, LocalEntry>`. -/
abbrev LocalIndex := List (String × LocalEntry)

/-- `RemoteIndex = Record<string, RemoteEntry>`. -/
abbrev RemoteIndex := List (String × RemoteEntry)

/-- The `entries` record of a baseline. -/
abbrev BaselineEntries := List (String × BaselineEntry)

/-- `SyncBaseline = {commitSha?, entries}`. -/
structure SyncBaseline where
  commitSha : Option String
  entries : BaselineEntries
deriving DecidableEq, Repr

/-- The `SyncOp` union type.  The conflict `reason` is kept as a raw string,
as in the source's string-literal union. -/
inductive SyncOp where
  | pull_new (path : String)
  | pull_update (path : String)
  | pull_delete (path : String)
  | push_new (path : String)
  | push_update (path : String)
  | push_delete (path : String)
  | rename_local (fromPath toPath : String)
  | rename_remote (fromPath toPath : String)
  | conflict (path : String) (reason : String)
deriving DecidableEq, Repr

/-- `SyncConfig["conflictPolicy"]`. -/
inductive Policy where
  | preferLocal
  | preferRemote
  | keepBoth
  | manual
deriving DecidableEq, Repr

/-- The resolver's internal four-valued `ConflictReason` type. -/
inductive ConflictReason where
  | modifyModify
  | deleteModifyLocal
  | deleteModifyRemote
  | localMissingRemote
deriving DecidableEq, Repr

/-- The string the source uses for a given normalized reason. -/
def reasonStr : ConflictReason → String
  | .modifyModify => "modify-modify"
  | .deleteModifyLocal => "delete-modify-local"
  | .deleteModifyRemote => "delete-modify-remote"
  | .localMissingRemote => "local-missing-remote"

/-- `ConflictRecord = {path, type, reason, policy, timestamp}` (the optional
`localVersion`/`remoteVersion` fields are never set by the resolver). -/
structure ConflictRecord where
  path : String
  rtype : String
  reason : String
  policy : Policy
  timestamp : String
deriving DecidableEq, Repr

/-! ### DefaultConflictResolver -/

/-- `normalizeReason`: the three delete-flavoured reasons map to themselves,
every other string collapses to `modify-modify`. -/
def normalizeReason (reason : String) : ConflictReason :=
  if reason = "delete-modify-local" then .deleteModifyLocal
  else if reason = "delete-modify-remote" then .deleteModifyRemote
  else if reason = "local-missing-remote" then .localMissingRemote
  else .modifyModify

/-- `buildRecord`: the record's `type` collapses the three delete-flavoured
reasons to `delete-modify`.  `now` models `new Date().toISOString()`. -/
def buildRecord (path : String) (reason : ConflictReason) (policy : Policy)
    (now : String) : ConflictRecord :=
  { path := path
    rtype := if reason = .modifyModify then "modify-modify" else "delete-modify"
    reason := reasonStr reason
    policy := policy
    timestamp := now }

/-- `resolvePreferLocal`. -/
def resolvePreferLocal (path : String) (reason : ConflictReason) : SyncOp :=
  if reason = .deleteModifyLocal ∨ reason = .localMissingRemote then
    .push_delete path
  else if reason = .deleteModifyRemote then
    .push_new path
  else
    .push_update path

/-- `resolvePreferRemote`. -/
def resolvePreferRemote (path : String) (reason : ConflictReason) : SyncOp :=
  if reason = .deleteModifyLocal ∨ reason = .localMissingRemote then
    .pull_update path
  else if reason = .deleteModifyRemote then
    .pull_delete path
  else
    .pull_update path

/-- `DefaultConflictResolver.resolve`: one pass over the conflict list,
skipping non-conflict entries, always recording, and resolving only under
`preferLocal`/`preferRemote`.  Returns `(resolvedOps, conflictRecords)`. -/
def resolve (conflicts : List SyncOp) (policy : Policy) (now : String) :
    List SyncOp × List ConflictRecord :=
  match conflicts with
  | [] => ([], [])
  | op :: rest =>
    let (restOps, restRecs) := resolve rest policy now
    match op with
    | .conflict path rawReason =>
      let reason := normalizeReason rawReason
      let recs := buildRecord path reason policy now :: restRecs
      match policy with
      | .manual => (restOps, recs)
      | .keepBoth => (restOps, recs)
      | .preferLocal => (resolvePreferLocal path reason :: restOps, recs)
      | .preferRemote => (resolvePreferRemote path reason :: restOps, recs)
    | _ => (restOps, restRecs)

/-! ### DefaultSyncPlanner -/

/-- `hasLocalChanged`: baseline hash truthy and different, else baseline mtime
truthy and different. -/
def hasLocalChanged (localEntry : LocalEntry) (baseEntry : BaselineEntry) : Bool :=
  if strTruthy baseEntry.hash && !(baseEntry.hash == some localEntry.hash) then true
  else if natTruthy baseEntry.mtime && !(baseEntry.mtime == some localEntry.mtime) then true
  else false

/-- `hasRemoteChanged`: baseline sha truthy and different, else baseline
lastCommitTime truthy and different. -/
def hasRemoteChanged (remoteEntry : RemoteEntry) (baseEntry : BaselineEntry) : Bool :=
  if strTruthy baseEntry.sha && !(baseEntry.sha == some remoteEntry.sha) then true
  else if natTruthy baseEntry.lastCommitTime
      && !(baseEntry.lastCommitTime == some remoteEntry.lastCommitTime) then true
  else false

/-- A rename candidate, as passed to `matchRenames` (`{path, hash?}` or
`{path, sha?}`). -/
structure RenameCand where
  path : String
  hash : Option String
  sha : Option String
deriving DecidableEq, Repr

/-- The matching predicate inside `matchRenames`'s `added.find(...)`: compare
hashes when both are truthy, else shas when both are truthy, else no match. -/
def candMatch (del entry : RenameCand) : Bool :=
  if strTruthy del.hash && strTruthy entry.hash then del.hash == entry.hash
  else if strTruthy del.sha && strTruthy entry.sha then del.sha == entry.sha
  else false

/-- `matchRenames`'s loop over `deleted`, threading the `usedAdded` set:
each deleted candidate takes the first unused added candidate that matches. -/
def matchRenamesAux (deleted added : List RenameCand) (used : List String) :
    List (String × String) :=
  match deleted with
  | [] => []
  | del :: rest =>
    match added.find? (fun e => !used.contains e.path && candMatch del e) with
    | some m => (del.path, m.path) :: matchRenamesAux rest added (m.path :: used)
    | none => matchRenamesAux rest added used

/-- `DefaultSyncPlanner.matchRenames`. -/
def matchRenames (deleted added : List RenameCand) : List (String × String) :=
  matchRenamesAux deleted added []

/-- `detectLocalRenames`'s `deleted` list: baseline paths gone from local,
with a truthy baseline hash, whose remote sha is unchanged. -/
def localRenameDeleted (localIdx : LocalIndex) (remoteIdx : RemoteIndex)
    (baselineEntries : BaselineEntries) : List RenameCand :=
  baselineEntries.filterMap fun pe =>
    if !containsKey localIdx pe.1 && strTruthy pe.2.hash then
      match alookup remoteIdx pe.1 with
      | some r =>
        if pe.2.sha == some r.sha then
          some { path := pe.1, hash := pe.2.hash, sha := none : RenameCand }
        else none
      | none => none
    else none

/-- `detectLocalRenames`'s `added` list: local paths missing from the
baseline, carrying the local hash. -/
def localRenameAdded (localIdx : LocalIndex)
    (baselineEntries : BaselineEntries) : List RenameCand :=
  localIdx.filterMap fun pe =>
    if !containsKey baselineEntries pe.1 then
      some { path := pe.1, hash := some pe.2.hash, sha := none : RenameCand }
    else none

/-- `detectLocalRenames`. -/
def detectLocalRenames (localIdx : LocalIndex) (remoteIdx : RemoteIndex)
    (baselineEntries : BaselineEntries) : List (String × String) :=
  matchRenames (localRenameDeleted localIdx remoteIdx baselineEntries)
    (localRenameAdded localIdx baselineEntries)

/-- `detectRemoteRenames`'s `deleted` list: baseline paths gone from remote
whose local hash is unchanged and whose baseline sha is truthy. -/
def remoteRenameDeleted (localIdx : LocalIndex) (remoteIdx : RemoteIndex)
    (baselineEntries : BaselineEntries) : List RenameCand :=
  baselineEntries.filterMap fun pe =>
    match alookup remoteIdx pe.1, alookup localIdx pe.1 with
    | none, some l =>
      if pe.2.hash == some l.hash && strTruthy pe.2.sha then
        some { path := pe.1, hash := none, sha := pe.2.sha : RenameCand }
      else none
    | _, _ => none

/-- `detectRemoteRenames`'s `added` list: remote paths absent from both
baseline and local. -/
def remoteRenameAdded (localIdx : LocalIndex) (remoteIdx : RemoteIndex)
    (baselineEntries : BaselineEntries) : List RenameCand :=
  remoteIdx.filterMap fun pe =>
    if !containsKey baselineEntries pe.1 && !containsKey localIdx pe.1 then
      some { path := pe.1, hash := none, sha := some pe.2.sha : RenameCand }
    else none

/-- `detectRemoteRenames`. -/
def detectRemoteRenames (localIdx : LocalIndex) (remoteIdx : RemoteIndex)
    (baselineEntries : BaselineEntries) : List (String × String) :=
  matchRenames (remoteRenameDeleted localIdx remoteIdx baselineEntries)
    (remoteRenameAdded localIdx remoteIdx baselineEntries)

/-- One iteration of `plan`'s per-path three-way diff (lines 163-215 of the
planner): the single op or conflict pushed for a path, if any. -/
def diffPath (path : String) (localEntry : Option LocalEntry)
    (remoteEntry : Option RemoteEntry) (baseEntry : Option BaselineEntry) :
    Option SyncOp :=
  match baseEntry with
  | none =>
    match localEntry, remoteEntry with
    | some _, none => some (.push_new path)
    | none, some _ => some (.pull_new path)
    | some _, some _ => some (.conflict path "modify-modify")
    | none, none => none
  | some bE =>
    match localEntry, remoteEntry with
    | some l, some r =>
      let localChanged := hasLocalChanged l bE
      let remoteChanged := hasRemoteChanged r bE
      if localChanged && remoteChanged then some (.conflict path "modify-modify")
      else if localChanged then some (.push_update path)
      else if remoteChanged then some (.pull_update path)
      else none
    | some l, none =>
      if hasLocalChanged l bE then some (.conflict path "delete-modify-remote")
      else some (.pull_delete path)
    | none, some r =>
      if hasRemoteChanged r bE then some (.conflict path "delete-modify-local")
      else some (.conflict path "local-missing-remote")
    | none, none => none

/-- Whether a `SyncOp` is a `conflict` entry. -/
def isConflictOp : SyncOp → Bool
  | .conflict _ _ => true
  | _ => false

/-- The rename ops prepended to `ops`, in source order (all local renames,
then all remote renames). -/
def renameOpsOf (localRen remoteRen : List (String × String)) : List SyncOp :=
  localRen.map (fun r => .rename_local r.1 r.2)
    ++ remoteRen.map (fun r => .rename_remote r.1 r.2)

/-- The `handledPaths` set: the from/to paths of every rename (only
membership is ever queried). -/
def handledPathsOf (localRen remoteRen : List (String × String)) : List String :=
  (localRen ++ remoteRen).foldr (fun r acc => r.1 :: r.2 :: acc) []

/-- The union `new Set([...local, ...remote, ...baseline])` of key sets, in
insertion order. -/
def planAllPaths (localIdx : LocalIndex) (remoteIdx : RemoteIndex)
    (baselineEntries : BaselineEntries) : List String :=
  setOfList
    (localIdx.map Prod.fst ++ remoteIdx.map Prod.fst ++ baselineEntries.map Prod.fst)

/-- The `handledPaths` of a plan run. -/
def planHandled (localIdx : LocalIndex) (remoteIdx : RemoteIndex)
    (baselineEntries : BaselineEntries) : List String :=
  handledPathsOf (detectLocalRenames localIdx remoteIdx baselineEntries)
    (detectRemoteRenames localIdx remoteIdx baselineEntries)

/-- The per-path contribution of the diff loop: nothing for a
rename-handled path, otherwise `diffPath` on the three lookups. -/
def planContribution (localIdx : LocalIndex) (remoteIdx : RemoteIndex)
    (baselineEntries : BaselineEntries) (p : String) : Option SyncOp :=
  if (planHandled localIdx remoteIdx baselineEntries).contains p then none
  else diffPath p (alookup localIdx p) (alookup remoteIdx p)
    (alookup baselineEntries p)

/-- The non-conflict half of a contribution (pushed to `ops`). -/
def nonConflictPart : Option SyncOp → Option SyncOp
  | some op => if isConflictOp op then none else some op
  | none => none

/-- The conflict half of a contribution (pushed to `conflicts`). -/
def conflictPart : Option SyncOp → Option SyncOp
  | some op => if isConflictOp op then some op else none
  | none => none

/-- `plan` minus the mass-deletion guard: rename inference followed by the
per-path diff over the union of the three key sets.  Each loop iteration
pushes at most one entry, conflicts into `conflicts` and everything else
into `ops`, so the result splits the per-path contributions by
`isConflictOp`. -/
def planMain (localIdx : LocalIndex) (remoteIdx : RemoteIndex)
    (baselineEntries : BaselineEntries) : List SyncOp × List SyncOp :=
  (renameOpsOf (detectLocalRenames localIdx remoteIdx baselineEntries)
      (detectRemoteRenames localIdx remoteIdx baselineEntries)
    ++ ((planAllPaths localIdx remoteIdx baselineEntries).map
        (planContribution localIdx remoteIdx baselineEntries)).filterMap nonConflictPart,
   ((planAllPaths localIdx remoteIdx baselineEntries).map
       (planContribution localIdx remoteIdx baselineEntries)).filterMap conflictPart)

/-- The mass-deletion guard condition (first check of `plan`). -/
def massDeletionGuard (localIdx : LocalIndex) (remoteIdx : RemoteIndex)
    (baselineEntries : BaselineEntries) : Bool :=
  baselineEntries.length > 10 && remoteIdx.length == 0 && localIdx.length > 10

/-- `baseline?.entries ?? {}`. -/
def baselineEntriesOf : Option SyncBaseline → BaselineEntries
  | some b => b.entries
  | none => []

/-- `DefaultSyncPlanner.plan`, returning `(ops, conflicts)`. -/
def plan (localIdx : LocalIndex) (remoteIdx : RemoteIndex)
    (baseline : Option SyncBaseline) : List SyncOp × List SyncOp :=
  let baselineEntries := baselineEntriesOf baseline
  if massDeletionGuard localIdx remoteIdx baselineEntries then
    ([], localIdx.map fun pe => .conflict pe.1 "mass-remote-deletion-safety")
  else
    planMain localIdx remoteIdx baselineEntries

/-! ### DefaultSyncEngine.buildBaseline -/

/-- `buildBaseline`: one entry per path present in either snapshot, carrying
whichever side's fields exist. -/
def buildBaseline (localIdx : LocalIndex) (remoteIdx : RemoteIndex)
    (commitSha : Option String) : SyncBaseline :=
  let paths := setOfList (localIdx.map Prod.fst ++ remoteIdx.map Prod.fst)
  { commitSha := commitSha
    entries := paths.map fun p =>
      (p, { path := p
            hash := (alookup localIdx p).map (·.hash)
            sha := (alookup remoteIdx p).map (·.sha)
            mtime := (alookup localIdx p).map (·.mtime)
            lastCommitTime := (alookup remoteIdx p).map (·.lastCommitTime) }) }

/-! ### DefaultSyncEngine.executeOps

The op-list is partitioned exactly as in the source (`filter` per type), the
operations run as `runOp(label, failures, fn)` steps.  The outcome of each
step's I/O is abstracted by an oracle mapping the step's label to
`none` (success) or `some errorMessage` (the wrapped function threw). -/

/-- The label string of a single-path op, `op.type` in the source. -/
def opTypeStr : SyncOp → String
  | .pull_new _ => "pull_new"
  | .pull_update _ => "pull_update"
  | .pull_delete _ => "pull_delete"
  | .push_new _ => "push_new"
  | .push_update _ => "push_update"
  | .push_delete _ => "push_delete"
  | .rename_local _ _ => "rename_local"
  | .rename_remote _ _ => "rename_remote"
  | .conflict _ _ => "conflict"

/-- `ops.filter(op => op.type === "rename_remote")` as from/to pairs. -/
def renameRemotePairs (ops : List SyncOp) : List (String × String) :=
  ops.filterMap fun op => match op with
    | .rename_remote f t => some (f, t)
    | _ => none

/-- `ops.filter(op => op.type === "rename_local")` as from/to pairs. -/
def renameLocalPairs (ops : List SyncOp) : List (String × String) :=
  ops.filterMap fun op => match op with
    | .rename_local f t => some (f, t)
    | _ => none

/-- The paths of the `pull_delete` ops. -/
def pullDeletePaths (ops : List SyncOp) : List String :=
  ops.filterMap fun op => match op with
    | .pull_delete p => some p
    | _ => none

/-- The paths of the `push_delete` ops. -/
def pushDeletePaths (ops : List SyncOp) : List String :=
  ops.filterMap fun op => match op with
    | .push_delete p => some p
    | _ => none

/-- The `pull_update`/`pull_new` ops as (type-label, path) pairs. -/
def pullUpdateLabeled (ops : List SyncOp) : List (String × String) :=
  ops.filterMap fun op => match op with
    | .pull_update p => some ("pull_update", p)
    | .pull_new p => some ("pull_new", p)
    | _ => none

/-- The paths of the `push_update`/`push_new` ops. -/
def pushUpdatePaths (ops : List SyncOp) : List String :=
  ops.filterMap fun op => match op with
    | .push_update p => some p
    | .push_new p => some p
    | _ => none

/-- The batched remote sets of `executeOps` (lines 211-227): `batchDeletes`
from the `push_delete` paths plus every `rename_local` source, `batchUpdates`
from the `push_new`/`push_update` paths plus every `rename_local`
destination; afterwards every update path is removed from the delete set.
Returns `(batchUpdates, batchDeletes)` in their final state. -/
def batchSets (ops : List SyncOp) : List String × List String :=
  let d0 := (pushDeletePaths ops).foldl insertOnce []
  let u0 := (pushUpdatePaths ops).foldl insertOnce []
  let du := (renameLocalPairs ops).foldl
    (fun acc r => (insertOnce acc.1 r.1, insertOnce acc.2 r.2)) (d0, u0)
  (du.2, du.1.filter fun p => !du.2.contains p)

/-- The `runOp` labels of one `executeOps` call, in execution order:
remote-renames applied as local renames, pull-deletes, pulls, the single
batched push (when either set is non-empty), and the keep-both pass (when
the policy is `keepBoth`). -/
def executeLabels (ops : List SyncOp) (policy : Policy) : List String :=
  (renameRemotePairs ops).map (fun r => "rename_local " ++ r.1 ++ " -> " ++ r.2)
    ++ (pullDeletePaths ops).map (fun p => "pull_delete " ++ p)
    ++ (pullUpdateLabeled ops).map (fun tp => tp.1 ++ " " ++ tp.2)
    ++ (let (upd, del) := batchSets ops
        if del.length > 0 || upd.length > 0 then
          ["batch_push " ++ Nat.repr upd.length ++ " updates, "
            ++ Nat.repr del.length ++ " deletes"]
        else [])
    ++ (if policy = .keepBoth then ["keepBoth_conflicts"] else [])

/-- The `runOp` wrapper iterated over a label sequence: every step is
attempted; a throwing step (oracle returns an error message) appends
`label: message` to `failures` and execution continues.  Returns
`(attempted, failures)`. -/
def runOps (labels : List String) (oracle : String → Option String) :
    List String × List String :=
  match labels with
  | [] => ([], [])
  | lbl :: rest =>
    let (att, fails) := runOps rest oracle
    match oracle lbl with
    | some msg => (lbl :: att, (lbl ++ ": " ++ msg) :: fails)
    | none => (lbl :: att, fails)

/-- The outcome of one `executeOps` call. -/
structure ExecOutcome where
  attempted : List String
  failures : List String
  result : Except String Unit
deriving Repr

/-- `executeOps`: run every step, then throw the aggregate error iff any step
failed. -/
def executeOps (ops : List SyncOp) (policy : Policy)
    (oracle : String → Option String) : ExecOutcome :=
  { attempted := (runOps (executeLabels ops policy) oracle).1
    failures := (runOps (executeLabels ops policy) oracle).2
    result :=
      if (runOps (executeLabels ops policy) oracle).2.length == 0 then .ok ()
      else .error ("Sync failed with "
        ++ Nat.repr (runOps (executeLabels ops policy) oracle).2.length
        ++ " errors.") }

/-- Remote-store mutating calls, for the transaction-count bound.  Read-only
calls (`getCommitInfo`, `getCommitTreeSha`, `getFile`) are not traced. -/
inductive RemoteCall where
  | createBlob (path content : String)
  | createTree
  | createCommit
  | updateRef
deriving DecidableEq, Repr

/-- The remote-mutating call trace of a successful `batchPush`: one blob per
update path whose local file exists, then — only when the entry list is
non-empty — exactly one tree, one commit and one ref update. -/
def batchPushTrace (updates deletes : List String)
    (vaultRead : String → Option String) : List RemoteCall :=
  let blobs := updates.filterMap fun p =>
    (vaultRead p).map fun c => RemoteCall.createBlob p c
  if blobs.length + deletes.length == 0 then []
  else blobs ++ [.createTree, .createCommit, .updateRef]

/-- The remote-mutating call trace of a successful `executeOps` run: the
rename/pull stages and the keep-both pass only touch the local vault or
perform remote reads, so the only mutating calls come from the at most one
`batchPush` invocation. -/
def executeOpsRemoteTrace (ops : List SyncOp)
    (vaultRead : String → Option String) : List RemoteCall :=
  let (upd, del) := batchSets ops
  if del.length > 0 || upd.length > 0 then batchPushTrace upd del vaultRead
  else []

/-! ### DefaultSyncEngine.sync (control flow) -/

/-- What the state store holds after a `sync` call, plus the call's result
and the attempted execution steps.  `sync` re-scans both sides only on the
success path; the post-execution snapshots and the fresh head commit sha are
supplied as parameters since they come from external collaborators. -/
structure SyncOutcome where
  result : Except String Unit
  storedBaseline : Option SyncBaseline
  storedConflicts : List ConflictRecord
  attempted : List String
deriving Repr

/-- The merged operation list of a sync run: the planner's non-conflict ops
plus the resolver's resolved ops. -/
def syncFinalOps (prior : Option SyncBaseline) (localIdx : LocalIndex)
    (remoteIdx : RemoteIndex) (policy : Policy) (now : String) : List SyncOp :=
  (plan localIdx remoteIdx prior).1.filter (fun op => !isConflictOp op)
    ++ (resolve (plan localIdx remoteIdx prior).2 policy now).1

/-- The conflict records persisted (before execution) by a sync run. -/
def syncRecords (prior : Option SyncBaseline) (localIdx : LocalIndex)
    (remoteIdx : RemoteIndex) (policy : Policy) (now : String) :
    List ConflictRecord :=
  (resolve (plan localIdx remoteIdx prior).2 policy now).2

/-- The control flow of `DefaultSyncEngine.sync` around execution: persist
the conflict records, execute the merged op list, and only when execution
did not throw rebuild and persist the baseline from the updated snapshots;
the aggregate execution error is logged and re-thrown, leaving the prior
baseline in the store. -/
def syncModel (prior : Option SyncBaseline) (localIdx : LocalIndex)
    (remoteIdx : RemoteIndex) (policy : Policy) (now : String)
    (oracle : String → Option String) (updatedLocal : LocalIndex)
    (updatedRemote : RemoteIndex) (newCommitSha : Option String) : SyncOutcome :=
  let records := syncRecords prior localIdx remoteIdx policy now
  let exec := executeOps (syncFinalOps prior localIdx remoteIdx policy now) policy oracle
  match exec.result with
  | .ok _ =>
    { result := .ok ()
      storedBaseline := some (buildBaseline updatedLocal updatedRemote newCommitSha)
      storedConflicts := records
      attempted := exec.attempted }
  | .error e =>
    { result := .error e
      storedBaseline := prior
      storedConflicts := records
      attempted := exec.attempted }

/-! ### Keep-both materialization -/

/-- The result of `new Date()` as the components the source reads
(`getMonth` is 0-based). -/
structure DateParts where
  year : Nat
  month : Nat
  day : Nat
  hours : Nat
  minutes : Nat
deriving DecidableEq, Repr

/-- `String(n).padStart(2, "0")`. -/
def pad2 (n : Nat) : String :=
  let s := Nat.repr n
  if s.length < 2 then String.mk (List.replicate (2 - s.length) '0') ++ s else s

/-- `formatTimestamp`: `YYYYMMDD-HHMM` (year unpadded, the rest zero-padded
to two digits, month shifted to 1-based). -/
def formatTimestamp (d : DateParts) : String :=
  Nat.repr d.year ++ pad2 (d.month + 1) ++ pad2 d.day ++ "-"
    ++ pad2 d.hours ++ pad2 d.minutes

/-- `s.lastIndexOf(c)` with JS's `-1` for "not found". -/
def lastIndexOf (s : String) (c : Char) : Int :=
  match (s.data.enum.filter fun pe => pe.2 = c).getLast? with
  | some pe => (pe.1 : Int)
  | none => -1

/-- The candidate sequence of `nextConflictPath`: candidate `0` is
`base (tag-ts)ext`, candidate `k ≥ 1` is `base (tag-ts-k)ext` (the loop's
`counter` starts at `1`). -/
def conflictCand (base ext tag ts : String) : Nat → String
  | 0 => base ++ " (" ++ tag ++ "-" ++ ts ++ ")" ++ ext
  | Nat.succ k =>
    base ++ " (" ++ tag ++ "-" ++ (ts ++ "-" ++ (Nat.repr (k + 1) ++ (")" ++ ext)))

/-- The `while (vault has candidate)` probe loop, sequentially trying
candidates `k, k+1, …`.  The fuel only bounds the recursion: `vault.length + 1`
probes always suffice because the candidate strings are pairwise distinct
(`conflictCand_injective` below), so the unchecked fuel-exhausted branch is
never reached. -/
def probeLoop (vaultPathList : List String) (cand : Nat → String) :
    Nat → Nat → String
  | 0, k => cand k
  | Nat.succ fuel, k =>
    if vaultPathList.contains (cand k) then probeLoop vaultPathList cand fuel (k + 1)
    else cand k

/-- The `base` part of `nextConflictPath`: everything before the extension
dot (a dot counts only when it comes after the last slash). -/
def conflictBase (normalized : String) : String :=
  let dotIndex := lastIndexOf normalized '.'
  let hasExt := dotIndex > lastIndexOf normalized '/'
  if hasExt then String.mk (normalized.data.take dotIndex.toNat) else normalized

/-- The `ext` part of `nextConflictPath`: the extension including its dot,
or `""` when there is none. -/
def conflictExt (normalized : String) : String :=
  let dotIndex := lastIndexOf normalized '.'
  let hasExt := dotIndex > lastIndexOf normalized '/'
  if hasExt then String.mk (normalized.data.drop dotIndex.toNat) else ""

/-- `nextConflictPath`: split the extension off, insert ` (tag-timestamp)`
before it, and probe numeric `-1`, `-2`, … suffixes until the candidate
names no existing file.  Obsidian's `normalizePath` is modelled as the
identity on the already normalized vault paths. -/
def nextConflictPath (vaultPathList : List String) (path tag : String)
    (now : DateParts) : String :=
  let normalized := path
  let ts := formatTimestamp now
  probeLoop vaultPathList
    (conflictCand (conflictBase normalized) (conflictExt normalized) tag ts)
    (vaultPathList.length + 1) 0

/-- The local vault, path to file contents. -/
abbrev Vault := List (String × String)

/-- The existing vault paths, what `getAbstractFileByPath` can resolve. -/
def vaultPaths (v : Vault) : List String := v.map Prod.fst

/-- `modifyBinary`: overwrite the contents stored at a path. -/
def vaultModify (v : Vault) (p c : String) : Vault :=
  v.map fun e => if e.1 = p then (p, c) else e

/-- `applyKeepBothConflicts`: for each conflict compute the sibling path with
the reason-dependent tag, then: `modify-modify`/`delete-modify-local` fetch
the remote bytes into the sibling (failing the whole pass when the fetch
throws), `delete-modify-remote` copies the local bytes into the sibling
(silently skipped when the local file is missing, as in `copyLocalFile`),
`local-missing-remote` restores the remote file at its original path
(overwriting if present, creating otherwise).  Folder handling
(`ensureParentFolder`) is not modelled.  Returns `none` when a remote fetch
threw, aborting the single `keepBoth_conflicts` step. -/
def applyKeepBothConflicts (conflicts : List SyncOp)
    (remoteFetch : String → Option String) (now : DateParts) (v : Vault) :
    Option Vault :=
  match conflicts with
  | [] => some v
  | op :: rest =>
    match op with
    | .conflict path reason =>
      let tag := if reason == "delete-modify-local" then "conflict-local"
        else "conflict-remote"
      let conflictPath := nextConflictPath (vaultPaths v) path tag now
      if reason == "modify-modify" then
        match remoteFetch path with
        | some c => applyKeepBothConflicts rest remoteFetch now (v ++ [(conflictPath, c)])
        | none => none
      else if reason == "delete-modify-local" then
        match remoteFetch path with
        | some c => applyKeepBothConflicts rest remoteFetch now (v ++ [(conflictPath, c)])
        | none => none
      else
        let v1 := if reason == "delete-modify-remote" then
            match alookup v path with
            | some c => v ++ [(conflictPath, c)]
            | none => v
          else v
        if reason == "local-missing-remote" then
          match remoteFetch path with
          | some c =>
            applyKeepBothConflicts rest remoteFetch now
              (if containsKey v1 path then vaultModify v1 path c else v1 ++ [(path, c)])
          | none => none
        else applyKeepBothConflicts rest remoteFetch now v1
    | _ => applyKeepBothConflicts rest remoteFetch now v

/-! ## Helper lemmas: association lists and sets -/

lemma mem_insertOnce {l : List String} {p q : String} :
    p ∈ insertOnce l q ↔ p ∈ l ∨ p = q := by
  unfold insertOnce
  by_cases h : l.contains q
  · rw [if_pos h]
    have hq : q ∈ l := by simpa using h
    constructor
    · exact Or.inl
    · rintro (hp | rfl)
      · exact hp
      · exact hq
  · rw [if_neg h]
    simp

lemma mem_foldl_insertOnce (ps : List String) (p : String) :
    ∀ acc, p ∈ ps.foldl insertOnce acc ↔ p ∈ acc ∨ p ∈ ps := by
  induction ps with
  | nil => simp
  | cons q rest ih =>
    intro acc
    rw [List.foldl_cons, ih, mem_insertOnce]
    simp [or_assoc]

lemma mem_setOfList {ps : List String} {p : String} :
    p ∈ setOfList ps ↔ p ∈ ps := by
  unfold setOfList
  rw [mem_foldl_insertOnce]
  simp

lemma alookup_isSome_iff {α : Type} {l : List (String × α)} {p : String} :
    (alookup l p).isSome ↔ p ∈ l.map Prod.fst := by
  induction l with
  | nil => simp [alookup]
  | cons e rest ih =>
    obtain ⟨q, v⟩ := e
    by_cases h : q = p
    · subst h; simp [alookup]
    · simp [alookup, if_neg h, ih, Ne.symm h]

lemma alookup_eq_none_iff {α : Type} {l : List (String × α)} {p : String} :
    alookup l p = none ↔ p ∉ l.map Prod.fst := by
  rw [← alookup_isSome_iff, Option.not_isSome_iff_eq_none]

lemma alookup_map_mk {α : Type} (ps : List String) (f : String → α) (p : String)
    (hp : p ∈ ps) : alookup (ps.map fun q => (q, f q)) p = some (f p) := by
  induction ps with
  | nil => cases hp
  | cons q rest ih =>
    by_cases h : q = p
    · subst h; simp [alookup]
    · have hp' : p ∈ rest := by
        cases hp with
        | head => exact absurd rfl h
        | tail _ h' => exact h'
      simp [alookup, if_neg h, ih hp']

lemma alookup_mem {α : Type} {l : List (String × α)} {p : String} {v : α}
    (h : (p, v) ∈ l) : (alookup l p).isSome := by
  rw [alookup_isSome_iff]
  exact List.mem_map_of_mem Prod.fst h

/-- With duplicate-free keys, a member pair is exactly what lookup returns. -/
lemma alookup_of_mem_nodup {α : Type} {l : List (String × α)} {p : String} {v : α}
    (hnd : (l.map Prod.fst).Nodup) (h : (p, v) ∈ l) : alookup l p = some v := by
  induction l with
  | nil => cases h
  | cons e rest ih =>
    obtain ⟨q, w⟩ := e
    rw [List.map_cons, List.nodup_cons] at hnd
    cases h with
    | head => simp [alookup]
    | tail _ h' =>
      have h1 : q ∉ List.map Prod.fst rest := hnd.1
      have hq : q ≠ p := by
        rintro rfl
        exact h1 (List.mem_map_of_mem Prod.fst h')
      simp [alookup, if_neg hq, ih hnd.2 h']

/-! ## Helper lemmas: resolver structure -/

/-- The records side of `resolve`: one record per conflict entry, in order,
independent of the policy branch taken. -/
lemma resolve_records (conflicts : List SyncOp) (policy : Policy) (now : String) :
    (resolve conflicts policy now).2
      = conflicts.filterMap (fun op => match op with
        | .conflict p r => some (buildRecord p (normalizeReason r) policy now)
        | _ => none) := by
  induction conflicts with
  | nil => rfl
  | cons op rest ih =>
    cases op <;> cases policy <;> simp [resolve, ih, List.filterMap_cons]

/-- Under `manual` no resolving op is produced. -/
lemma resolve_ops_manual (conflicts : List SyncOp) (now : String) :
    (resolve conflicts .manual now).1 = [] := by
  induction conflicts with
  | nil => rfl
  | cons op rest ih => cases op <;> simp [resolve, ih]

/-- Under `keepBoth` no resolving op is produced. -/
lemma resolve_ops_keepBoth (conflicts : List SyncOp) (now : String) :
    (resolve conflicts .keepBoth now).1 = [] := by
  induction conflicts with
  | nil => rfl
  | cons op rest ih => cases op <;> simp [resolve, ih]

/-- Under `preferLocal` the resolving ops are `resolvePreferLocal` applied to
each conflict's path and normalized reason, in order. -/
lemma resolve_ops_preferLocal (conflicts : List SyncOp) (now : String) :
    (resolve conflicts .preferLocal now).1
      = conflicts.filterMap (fun op => match op with
        | .conflict p r => some (resolvePreferLocal p (normalizeReason r))
        | _ => none) := by
  induction conflicts with
  | nil => rfl
  | cons op rest ih => cases op <;> simp [resolve, ih, List.filterMap_cons]

/-- Under `preferRemote` the resolving ops are `resolvePreferRemote` applied
to each conflict's path and normalized reason, in order. -/
lemma resolve_ops_preferRemote (conflicts : List SyncOp) (now : String) :
    (resolve conflicts .preferRemote now).1
      = conflicts.filterMap (fun op => match op with
        | .conflict p r => some (resolvePreferRemote p (normalizeReason r))
        | _ => none) := by
  induction conflicts with
  | nil => rfl
  | cons op rest ih => cases op <;> simp [resolve, ih, List.filterMap_cons]

/-! ## C5: resolver policy table and audit trail -/

/-- C5.  For every conflict list and policy, `resolve` emits exactly one
`ConflictRecord` per input `conflict` op (non-conflict entries are skipped)
regardless of policy; under `manual`/`keepBoth` the resolved-op list is
empty; under `preferLocal` the resolving op is `push_delete` for
`delete-modify-local`/`local-missing-remote`, `push_new` for
`delete-modify-remote` and `push_update` for `modify-modify`; under
`preferRemote` it is `pull_update`, `pull_delete` and `pull_update`
respectively — and every resolved op and record carries the conflict's
path. -/
theorem resolver_policy_table :
    (∀ (conflicts : List SyncOp) (policy : Policy) (now : String),
      (resolve conflicts policy now).2
        = conflicts.filterMap (fun op => match op with
          | .conflict p r => some (buildRecord p (normalizeReason r) policy now)
          | _ => none)
      ∧ ((policy = .manual ∨ policy = .keepBoth) → (resolve conflicts policy now).1 = [])
      ∧ (policy = .preferLocal →
          (resolve conflicts policy now).1
            = conflicts.filterMap (fun op => match op with
              | .conflict p r => some (resolvePreferLocal p (normalizeReason r))
              | _ => none))
      ∧ (policy = .preferRemote →
          (resolve conflicts policy now).1
            = conflicts.filterMap (fun op => match op with
              | .conflict p r => some (resolvePreferRemote p (normalizeReason r))
              | _ => none)))
    ∧ (∀ p : String,
      resolvePreferLocal p .deleteModifyLocal = .push_delete p
      ∧ resolvePreferLocal p .localMissingRemote = .push_delete p
      ∧ resolvePreferLocal p .deleteModifyRemote = .push_new p
      ∧ resolvePreferLocal p .modifyModify = .push_update p
      ∧ resolvePreferRemote p .deleteModifyLocal = .pull_update p
      ∧ resolvePreferRemote p .localMissingRemote = .pull_update p
      ∧ resolvePreferRemote p .deleteModifyRemote = .pull_delete p
      ∧ resolvePreferRemote p .modifyModify = .pull_update p)
    ∧ (normalizeReason "modify-modify" = .modifyModify
      ∧ normalizeReason "delete-modify-local" = .deleteModifyLocal
      ∧ normalizeReason "delete-modify-remote" = .deleteModifyRemote
      ∧ normalizeReason "local-missing-remote" = .localMissingRemote)
    ∧ (∀ (p : String) (r : ConflictReason) (policy : Policy) (now : String),
      (buildRecord p r policy now).path = p
      ∧ (buildRecord p r policy now).policy = policy) := by
  refine ⟨fun conflicts policy now => ⟨resolve_records .., ?_, ?_, ?_⟩, ?_, ?_, ?_⟩
  · rintro (rfl | rfl)
    · exact resolve_ops_manual ..
    · exact resolve_ops_keepBoth ..
  · rintro rfl; exact resolve_ops_preferLocal ..
  · rintro rfl; exact resolve_ops_preferRemote ..
  · intro p
    refine ⟨rfl, rfl, rfl, rfl, rfl, rfl, rfl, rfl⟩
  · refine ⟨rfl, rfl, rfl, rfl⟩
  · intro p r policy now; exact ⟨rfl, rfl⟩

/-- Witness for C5 at a concrete two-entry input (one conflict, one
non-conflict op) under each policy family. -/
theorem resolver_policy_table_witness :
    (resolve [SyncOp.conflict "a.md" "modify-modify", SyncOp.push_new "b.md"]
        .manual "t").1 = []
    ∧ (resolve [SyncOp.conflict "a.md" "modify-modify", SyncOp.push_new "b.md"]
        .manual "t").2 = [buildRecord "a.md" .modifyModify .manual "t"]
    ∧ (resolve [SyncOp.conflict "a.md" "delete-modify-local"] .preferLocal "t").1
        = [SyncOp.push_delete "a.md"] := by
  have h := resolver_policy_table
  refine ⟨(h.1 _ .manual "t").2.1 (Or.inl rfl), ?_, ?_⟩
  · exact ((h.1 [SyncOp.conflict "a.md" "modify-modify", SyncOp.push_new "b.md"]
      .manual "t").1).trans (by decide)
  · exact ((h.1 [SyncOp.conflict "a.md" "delete-modify-local"]
      .preferLocal "t").2.2.1 rfl).trans (by decide)

/-! ## C10: unknown conflict reasons collapse to modify-modify -/

/-- C10.  Any conflict whose reason string is none of the three
delete-flavoured reasons (in particular `mass-remote-deletion-safety`) is
normalized to `modify-modify`: its persisted record has type and reason
`modify-modify`, and under `preferLocal`/`preferRemote` it still resolves to
`push_update`/`pull_update` at the conflict's path. -/
theorem unknown_reason_collapses (path r : String) (policy : Policy) (now : String)
    (h1 : r ≠ "delete-modify-local") (h2 : r ≠ "delete-modify-remote")
    (h3 : r ≠ "local-missing-remote") :
    normalizeReason r = .modifyModify
    ∧ (resolve [.conflict path r] policy now).2
        = [buildRecord path .modifyModify policy now]
    ∧ (buildRecord path .modifyModify policy now).rtype = "modify-modify"
    ∧ (buildRecord path .modifyModify policy now).reason = "modify-modify"
    ∧ (policy = .preferLocal →
        (resolve [.conflict path r] policy now).1 = [.push_update path])
    ∧ (policy = .preferRemote →
        (resolve [.conflict path r] policy now).1 = [.pull_update path]) := by
  have hn : normalizeReason r = .modifyModify := by
    simp [normalizeReason, h1, h2, h3]
  refine ⟨hn, ?_, rfl, rfl, ?_, ?_⟩
  · rw [resolve_records]; simp [hn]
  · rintro rfl; rw [resolve_ops_preferLocal]; simp [hn, resolvePreferLocal]
  · rintro rfl; rw [resolve_ops_preferRemote]; simp [hn, resolvePreferRemote]

/-- Witness for C10 at the concrete reason `mass-remote-deletion-safety`
under `preferLocal`. -/
theorem unknown_reason_collapses_witness :
    normalizeReason "mass-remote-deletion-safety" = .modifyModify
    ∧ (resolve [.conflict "n.md" "mass-remote-deletion-safety"] .preferLocal "t").1
        = [.push_update "n.md"] := by
  have h := unknown_reason_collapses "n.md" "mass-remote-deletion-safety"
    .preferLocal "t" (by decide) (by decide) (by decide)
  exact ⟨h.1, h.2.2.2.2.1 rfl⟩

/-! ## C3: mass-deletion safety guard -/

/-- When the guard condition is false, `plan` is the rename-plus-diff
pipeline. -/
lemma plan_guard_false {localIdx : LocalIndex} {remoteIdx : RemoteIndex}
    (baseline : Option SyncBaseline)
    (h : massDeletionGuard localIdx remoteIdx (baselineEntriesOf baseline) = false) :
    plan localIdx remoteIdx baseline
      = planMain localIdx remoteIdx (baselineEntriesOf baseline) := by
  simp [plan, h]

/-- C3.  With more than 10 baseline entries, an empty remote snapshot and
more than 10 local paths, `plan` returns zero operations and exactly one
`mass-remote-deletion-safety` conflict per local path, before any other
planning logic; if any of the three count conditions fails, the guard does
not fire and `plan` runs the normal rename-plus-diff pipeline. -/
theorem mass_deletion_guard_behavior (localIdx : LocalIndex)
    (remoteIdx : RemoteIndex) (b : SyncBaseline)
    (hlnd : (localIdx.map Prod.fst).Nodup) (hbnd : (b.entries.map Prod.fst).Nodup) :
    (b.entries.length > 10 → remoteIdx = [] → localIdx.length > 10 →
      plan localIdx remoteIdx (some b)
        = ([], localIdx.map fun pe => .conflict pe.1 "mass-remote-deletion-safety"))
    ∧ (¬(b.entries.length > 10 ∧ remoteIdx = [] ∧ localIdx.length > 10) →
      plan localIdx remoteIdx (some b)
        = planMain localIdx remoteIdx b.entries) := by
  constructor
  · intro hb hr hl
    subst hr
    have hg : massDeletionGuard localIdx [] b.entries = true := by
      simp [massDeletionGuard, hb, hl]
    simp [plan, baselineEntriesOf, hg]
  · intro hneg
    have hg : massDeletionGuard localIdx remoteIdx b.entries = false := by
      rw [massDeletionGuard]
      simp only [Bool.and_eq_false_iff, gt_iff_lt, decide_eq_false_iff_not, not_lt,
        beq_eq_false_iff_ne, ne_eq, List.length_eq_zero]
      by_cases h1 : b.entries.length > 10
      · by_cases h2 : remoteIdx = []
        · have h3 : ¬ localIdx.length > 10 := fun h3 => hneg ⟨h1, h2, h3⟩
          exact Or.inr (by omega)
        · exact Or.inl (Or.inr (by simpa [List.length_eq_zero] using h2))
      · exact Or.inl (Or.inl (by omega))
    exact plan_guard_false (some b) hg

/-- Witness for C3: the guard fires on an 11-file local snapshot with an
empty remote and an 11-entry baseline, and does not fire once the remote is
non-empty. -/
theorem mass_deletion_guard_behavior_witness :
    plan
      [("p0", ⟨"p0", "h", 1, 1⟩), ("p1", ⟨"p1", "h", 1, 1⟩), ("p2", ⟨"p2", "h", 1, 1⟩),
       ("p3", ⟨"p3", "h", 1, 1⟩), ("p4", ⟨"p4", "h", 1, 1⟩), ("p5", ⟨"p5", "h", 1, 1⟩),
       ("p6", ⟨"p6", "h", 1, 1⟩), ("p7", ⟨"p7", "h", 1, 1⟩), ("p8", ⟨"p8", "h", 1, 1⟩),
       ("p9", ⟨"p9", "h", 1, 1⟩), ("p10", ⟨"p10", "h", 1, 1⟩)]
      []
      (some (buildBaseline
        [("p0", ⟨"p0", "h", 1, 1⟩), ("p1", ⟨"p1", "h", 1, 1⟩), ("p2", ⟨"p2", "h", 1, 1⟩),
         ("p3", ⟨"p3", "h", 1, 1⟩), ("p4", ⟨"p4", "h", 1, 1⟩), ("p5", ⟨"p5", "h", 1, 1⟩),
         ("p6", ⟨"p6", "h", 1, 1⟩), ("p7", ⟨"p7", "h", 1, 1⟩), ("p8", ⟨"p8", "h", 1, 1⟩),
         ("p9", ⟨"p9", "h", 1, 1⟩), ("p10", ⟨"p10", "h", 1, 1⟩)]
        [("q", ⟨"q", "s", 1, 1⟩)] none))
      = ([],
         [SyncOp.conflict "p0" "mass-remote-deletion-safety",
          SyncOp.conflict "p1" "mass-remote-deletion-safety",
          SyncOp.conflict "p2" "mass-remote-deletion-safety",
          SyncOp.conflict "p3" "mass-remote-deletion-safety",
          SyncOp.conflict "p4" "mass-remote-deletion-safety",
          SyncOp.conflict "p5" "mass-remote-deletion-safety",
          SyncOp.conflict "p6" "mass-remote-deletion-safety",
          SyncOp.conflict "p7" "mass-remote-deletion-safety",
          SyncOp.conflict "p8" "mass-remote-deletion-safety",
          SyncOp.conflict "p9" "mass-remote-deletion-safety",
          SyncOp.conflict "p10" "mass-remote-deletion-safety"]) := by
  have h := mass_deletion_guard_behavior
    [("p0", ⟨"p0", "h", 1, 1⟩), ("p1", ⟨"p1", "h", 1, 1⟩), ("p2", ⟨"p2", "h", 1, 1⟩),
     ("p3", ⟨"p3", "h", 1, 1⟩), ("p4", ⟨"p4", "h", 1, 1⟩), ("p5", ⟨"p5", "h", 1, 1⟩),
     ("p6", ⟨"p6", "h", 1, 1⟩), ("p7", ⟨"p7", "h", 1, 1⟩), ("p8", ⟨"p8", "h", 1, 1⟩),
     ("p9", ⟨"p9", "h", 1, 1⟩), ("p10", ⟨"p10", "h", 1, 1⟩)]
    []
    (buildBaseline
      [("p0", ⟨"p0", "h", 1, 1⟩), ("p1", ⟨"p1", "h", 1, 1⟩), ("p2", ⟨"p2", "h", 1, 1⟩),
       ("p3", ⟨"p3", "h", 1, 1⟩), ("p4", ⟨"p4", "h", 1, 1⟩), ("p5", ⟨"p5", "h", 1, 1⟩),
       ("p6", ⟨"p6", "h", 1, 1⟩), ("p7", ⟨"p7", "h", 1, 1⟩), ("p8", ⟨"p8", "h", 1, 1⟩),
       ("p9", ⟨"p9", "h", 1, 1⟩), ("p10", ⟨"p10", "h", 1, 1⟩)]
      [("q", ⟨"q", "s", 1, 1⟩)] none)
    (by decide) (by decide)
  exact (h.1 (by decide) rfl (by decide)).trans (by decide)

/-! ## C1: idempotence of planning (corrected) -/

/-- Counterexample to C1 as stated: the baseline rebuilt from the very same
snapshots does not make the second plan empty.  A remote-only path
resurfaces as a `local-missing-remote` conflict, and a local-only path
resurfaces as a `pull_delete` op. -/
theorem planning_idempotence_cex :
    plan [] [("a.md", ⟨"a.md", "s", 0, 5⟩)]
        (some (buildBaseline [] [("a.md", ⟨"a.md", "s", 0, 5⟩)] none))
      = ([], [SyncOp.conflict "a.md" "local-missing-remote"])
    ∧ plan [] [("a.md", ⟨"a.md", "s", 0, 5⟩)]
        (some (buildBaseline [] [("a.md", ⟨"a.md", "s", 0, 5⟩)] none)) ≠ ([], [])
    ∧ plan [("b.md", ⟨"b.md", "h", 3, 1⟩)] []
        (some (buildBaseline [("b.md", ⟨"b.md", "h", 3, 1⟩)] [] none))
      = ([SyncOp.pull_delete "b.md"], []) := by
  refine ⟨by decide, by decide, by decide⟩

/-- C1 (amended).  Planning is idempotent against the rebuilt baseline
provided the two snapshots list exactly the same paths: then
`plan local remote (buildBaseline local remote _) = ([], [])`.  (Paths
present on only one side — which survive into the rebuilt baseline as
one-sided entries — re-surface as `pull_delete` ops or
`local-missing-remote` conflicts, per the counterexample.) -/
theorem planning_idempotent_on_agreeing_snapshots (localIdx : LocalIndex)
    (remoteIdx : RemoteIndex) (c : Option String)
    (hagree : ∀ p, (alookup localIdx p).isSome ↔ (alookup remoteIdx p).isSome) :
    plan localIdx remoteIdx (some (buildBaseline localIdx remoteIdx c)) = ([], []) := by
  classical
  have hBpaths : (buildBaseline localIdx remoteIdx c).entries
      = (setOfList (localIdx.map Prod.fst ++ remoteIdx.map Prod.fst)).map
        (fun p => (p,
          { path := p
            hash := (alookup localIdx p).map (·.hash)
            sha := (alookup remoteIdx p).map (·.sha)
            mtime := (alookup localIdx p).map (·.mtime)
            lastCommitTime := (alookup remoteIdx p).map (·.lastCommitTime)
            : BaselineEntry })) := rfl
  -- the guard cannot fire: an empty remote forces an empty local
  have hguard : massDeletionGuard localIdx remoteIdx
      (buildBaseline localIdx remoteIdx c).entries = false := by
    by_cases hr : remoteIdx = []
    · have hl : localIdx = [] := by
        cases hlc : localIdx with
        | nil => rfl
        | cons e rest =>
          exfalso
          have h1 : (alookup localIdx e.1).isSome := by
            rw [hlc]
            obtain ⟨q, v⟩ := e
            simp [alookup]
          have h2 := (hagree e.1).mp h1
          rw [hr] at h2
          simp [alookup] at h2
      simp [massDeletionGuard, hl]
    · have h0 : (remoteIdx.length == 0) = false := by
        rw [beq_eq_false_iff_ne]
        simpa [← List.length_eq_zero] using hr
      simp [massDeletionGuard, h0]
  -- baseline lookups: every union path maps to the built entry
  have hlookupB : ∀ p, p ∈ localIdx.map Prod.fst ++ remoteIdx.map Prod.fst →
      alookup (buildBaseline localIdx remoteIdx c).entries p = some
        { path := p
          hash := (alookup localIdx p).map (·.hash)
          sha := (alookup remoteIdx p).map (·.sha)
          mtime := (alookup localIdx p).map (·.mtime)
          lastCommitTime := (alookup remoteIdx p).map (·.lastCommitTime) } := by
    intro p hp
    rw [hBpaths]
    exact alookup_map_mk _ _ p (mem_setOfList.mpr hp)
  -- no local-rename candidates: a baseline path gone from local carries no hash
  have hlocRen : detectLocalRenames localIdx remoteIdx
      (buildBaseline localIdx remoteIdx c).entries = [] := by
    unfold detectLocalRenames localRenameDeleted
    have hdel : ((buildBaseline localIdx remoteIdx c).entries.filterMap fun pe =>
        if !containsKey localIdx pe.1 && strTruthy pe.2.hash then
          match alookup remoteIdx pe.1 with
          | some r =>
            if pe.2.sha == some r.sha then
              some { path := pe.1, hash := pe.2.hash, sha := none : RenameCand }
            else none
          | none => none
        else none) = [] := by
      rw [List.filterMap_eq_nil]
      intro pe hpe
      rw [hBpaths] at hpe
      obtain ⟨p, hp, rfl⟩ := List.mem_map.mp hpe
      by_cases hcl : containsKey localIdx p
      · simp [hcl]
      · have hnone : alookup localIdx p = none := by
          unfold containsKey at hcl
          exact Option.not_isSome_iff_eq_none.mp hcl
        simp [hcl, hnone, strTruthy]
    rw [hdel]
    rfl
  -- no remote-rename candidates: a baseline path gone from remote is also gone
  -- from local (path sets agree)
  have hremRen : detectRemoteRenames localIdx remoteIdx
      (buildBaseline localIdx remoteIdx c).entries = [] := by
    unfold detectRemoteRenames remoteRenameDeleted
    have hdel : ((buildBaseline localIdx remoteIdx c).entries.filterMap fun pe =>
        match alookup remoteIdx pe.1, alookup localIdx pe.1 with
        | none, some l =>
          if pe.2.hash == some l.hash && strTruthy pe.2.sha then
            some { path := pe.1, hash := none, sha := pe.2.sha : RenameCand }
          else none
        | _, _ => none) = [] := by
      rw [List.filterMap_eq_nil]
      intro pe hpe
      rw [hBpaths] at hpe
      obtain ⟨p, hp, rfl⟩ := List.mem_map.mp hpe
      cases hrem : alookup remoteIdx p with
      | some r => simp [hrem]
      | none =>
        have hln : alookup localIdx p = none := by
          by_contra hcon
          have h1 : (alookup localIdx p).isSome :=
            Option.ne_none_iff_isSome.mp hcon
          have h2 := (hagree p).mp h1
          rw [hrem] at h2
          simp at h2
        simp [hrem, hln]
    rw [hdel]
    rfl
  -- the per-path diff contributes nothing
  have hcontrib : ∀ p,
      p ∈ planAllPaths localIdx remoteIdx (buildBaseline localIdx remoteIdx c).entries →
      planContribution localIdx remoteIdx (buildBaseline localIdx remoteIdx c).entries p
        = none := by
    intro p hp
    have hpu : p ∈ localIdx.map Prod.fst ++ remoteIdx.map Prod.fst := by
      have hp' := mem_setOfList.mp hp
      rcases List.mem_append.mp hp' with h | h
      · exact h
      · -- a baseline key is a union key
        rw [hBpaths] at h
        simp only [List.map_map] at h
        obtain ⟨q, hq, rfl⟩ := List.mem_map.mp h
        exact mem_setOfList.mp hq
    have hps : (alookup localIdx p).isSome ∧ (alookup remoteIdx p).isSome := by
      rcases List.mem_append.mp hpu with h | h
      · have h1 : (alookup localIdx p).isSome := alookup_isSome_iff.mpr h
        exact ⟨h1, (hagree p).mp h1⟩
      · have h2 : (alookup remoteIdx p).isSome := alookup_isSome_iff.mpr h
        exact ⟨(hagree p).mpr h2, h2⟩
    obtain ⟨l, hl⟩ := Option.isSome_iff_exists.mp hps.1
    obtain ⟨r, hr⟩ := Option.isSome_iff_exists.mp hps.2
    unfold planContribution
    rw [show planHandled localIdx remoteIdx (buildBaseline localIdx remoteIdx c).entries
        = handledPathsOf [] [] by
      unfold planHandled
      rw [hlocRen, hremRen]]
    rw [show (handledPathsOf [] []).contains p = false from rfl]
    rw [hlookupB p hpu, hl, hr]
    simp only [Bool.false_eq_true, if_false]
    unfold diffPath
    have hlc : hasLocalChanged l
        { path := p
          hash := some l.hash
          sha := some r.sha
          mtime := some l.mtime
          lastCommitTime := some r.lastCommitTime } = false := by
      unfold hasLocalChanged
      simp
    have hrc : hasRemoteChanged r
        { path := p
          hash := some l.hash
          sha := some r.sha
          mtime := some l.mtime
          lastCommitTime := some r.lastCommitTime } = false := by
      unfold hasRemoteChanged
      simp
    simp [hlc, hrc]
  rw [plan_guard_false (some (buildBaseline localIdx remoteIdx c)) hguard]
  show planMain localIdx remoteIdx (buildBaseline localIdx remoteIdx c).entries = ([], [])
  unfold planMain
  rw [hlocRen, hremRen]
  have hnil : ∀ f : Option SyncOp → Option SyncOp, f none = none →
      (((planAllPaths localIdx remoteIdx (buildBaseline localIdx remoteIdx c).entries).map
        (planContribution localIdx remoteIdx
          (buildBaseline localIdx remoteIdx c).entries)).filterMap f) = [] := by
    intro f hf
    rw [List.filterMap_eq_nil]
    intro a ha
    obtain ⟨p, hp, rfl⟩ := List.mem_map.mp ha
    rw [hcontrib p hp, hf]
  rw [hnil nonConflictPart rfl, hnil conflictPart rfl]
  rfl

/-! ## C2: per-path three-way diff table -/

/-- Modelled from the spec's wording: `localChanged` is the OR-combination
"baseline hash present and differing from the local hash, OR baseline mtime
present and differing from the local mtime", where "present" follows the
data model's `0`-or-`""`-means-unset convention (JS truthiness). -/
def specLocalChanged (l : LocalEntry) (b : BaselineEntry) : Bool :=
  (strTruthy b.hash && !(b.hash == some l.hash))
    || (natTruthy b.mtime && !(b.mtime == some l.mtime))

/-- Modelled from the spec's wording: `remoteChanged` is the OR-combination
"baseline objectId present and differing, OR baseline lastChangeTime present
and differing". -/
def specRemoteChanged (r : RemoteEntry) (b : BaselineEntry) : Bool :=
  (strTruthy b.sha && !(b.sha == some r.sha))
    || (natTruthy b.lastCommitTime && !(b.lastCommitTime == some r.lastCommitTime))

/-- Modelled from the spec's §4.1 case table, row by row: no baseline entry →
`push_new`/`pull_new`/`conflict(modify-modify)`; baseline and both present →
the four-way changed split; baseline with remote absent →
`conflict(delete-modify-remote)` or `pull_delete`; baseline with local
absent → `conflict(delete-modify-local)` or `conflict(local-missing-remote)`
and never a `push_delete`. -/
def specClassify (p : String) (lE : Option LocalEntry) (rE : Option RemoteEntry)
    (bE : Option BaselineEntry) : Option SyncOp :=
  match bE, lE, rE with
  | none, some _, none => some (.push_new p)
  | none, none, some _ => some (.pull_new p)
  | none, some _, some _ => some (.conflict p "modify-modify")
  | none, none, none => none
  | some b, some l, some r =>
    if specLocalChanged l b && specRemoteChanged r b then
      some (.conflict p "modify-modify")
    else if specLocalChanged l b then some (.push_update p)
    else if specRemoteChanged r b then some (.pull_update p)
    else none
  | some b, some l, none =>
    if specLocalChanged l b then some (.conflict p "delete-modify-remote")
    else some (.pull_delete p)
  | some b, none, some r =>
    if specRemoteChanged r b then some (.conflict p "delete-modify-local")
    else some (.conflict p "local-missing-remote")
  | some _, none, none => none

lemma hasLocalChanged_eq_spec (l : LocalEntry) (b : BaselineEntry) :
    hasLocalChanged l b = specLocalChanged l b := by
  unfold hasLocalChanged specLocalChanged
  cases h1 : (strTruthy b.hash && !(b.hash == some l.hash)) <;>
    cases h2 : (natTruthy b.mtime && !(b.mtime == some l.mtime)) <;>
    simp [h1, h2]

lemma hasRemoteChanged_eq_spec (r : RemoteEntry) (b : BaselineEntry) :
    hasRemoteChanged r b = specRemoteChanged r b := by
  unfold hasRemoteChanged specRemoteChanged
  cases h1 : (strTruthy b.sha && !(b.sha == some r.sha)) <;>
    cases h2 : (natTruthy b.lastCommitTime
      && !(b.lastCommitTime == some r.lastCommitTime)) <;>
    simp [h1, h2]

/-- C2.  The per-path three-way diff implements exactly the spec's case
table: `diffPath` coincides with the spec-modelled `specClassify` on every
input, and whenever the safety guard does not fire, `plan` is the rename ops
followed by the spec classification applied to every union path not
excluded by rename inference (split into non-conflict ops and conflicts). -/
theorem three_way_diff_table :
    (∀ (p : String) (lE : Option LocalEntry) (rE : Option RemoteEntry)
      (bE : Option BaselineEntry), diffPath p lE rE bE = specClassify p lE rE bE)
    ∧ (∀ (localIdx : LocalIndex) (remoteIdx : RemoteIndex) (b : Option SyncBaseline),
      massDeletionGuard localIdx remoteIdx (baselineEntriesOf b) = false →
      plan localIdx remoteIdx b
        = (renameOpsOf (detectLocalRenames localIdx remoteIdx (baselineEntriesOf b))
              (detectRemoteRenames localIdx remoteIdx (baselineEntriesOf b))
            ++ ((planAllPaths localIdx remoteIdx (baselineEntriesOf b)).map
                (fun p =>
                  if (planHandled localIdx remoteIdx (baselineEntriesOf b)).contains p
                  then none
                  else specClassify p (alookup localIdx p) (alookup remoteIdx p)
                    (alookup (baselineEntriesOf b) p))).filterMap nonConflictPart,
           ((planAllPaths localIdx remoteIdx (baselineEntriesOf b)).map
               (fun p =>
                 if (planHandled localIdx remoteIdx (baselineEntriesOf b)).contains p
                 then none
                 else specClassify p (alookup localIdx p) (alookup remoteIdx p)
                   (alookup (baselineEntriesOf b) p))).filterMap conflictPart)) := by
  have hpoint : ∀ (p : String) (lE : Option LocalEntry) (rE : Option RemoteEntry)
      (bE : Option BaselineEntry), diffPath p lE rE bE = specClassify p lE rE bE := by
    intro p lE rE bE
    cases bE with
    | none => cases lE <;> cases rE <;> rfl
    | some b =>
      cases lE with
      | none =>
        cases rE with
        | none => rfl
        | some r =>
          show (if hasRemoteChanged r b then _ else _) = _
          rw [hasRemoteChanged_eq_spec]
          rfl
      | some l =>
        cases rE with
        | none =>
          show (if hasLocalChanged l b then _ else _) = _
          rw [hasLocalChanged_eq_spec]
          rfl
        | some r =>
          show (if hasLocalChanged l b && hasRemoteChanged r b then _
            else if hasLocalChanged l b then _
            else if hasRemoteChanged r b then _ else _) = _
          rw [hasLocalChanged_eq_spec, hasRemoteChanged_eq_spec]
          rfl
  refine ⟨hpoint, fun localIdx remoteIdx b hguard => ?_⟩
  rw [plan_guard_false b hguard]
  unfold planMain
  have hfun : planContribution localIdx remoteIdx (baselineEntriesOf b)
      = fun p =>
        if (planHandled localIdx remoteIdx (baselineEntriesOf b)).contains p then none
        else specClassify p (alookup localIdx p) (alookup remoteIdx p)
          (alookup (baselineEntriesOf b) p) := by
    funext p
    unfold planContribution
    rw [hpoint]
  rw [hfun]

/-- Witness for C2: the pointwise table and the plan-level equation at a
concrete unguarded input. -/
theorem three_way_diff_table_witness :
    diffPath "a.md" (some ⟨"a.md", "h2", 1, 1⟩) (some ⟨"a.md", "s1", 0, 2⟩)
        (some ⟨"a.md", some "h1", some "s1", some 1, some 2⟩)
      = specClassify "a.md" (some ⟨"a.md", "h2", 1, 1⟩) (some ⟨"a.md", "s1", 0, 2⟩)
        (some ⟨"a.md", some "h1", some "s1", some 1, some 2⟩)
    ∧ specClassify "a.md" (some ⟨"a.md", "h2", 1, 1⟩) (some ⟨"a.md", "s1", 0, 2⟩)
        (some ⟨"a.md", some "h1", some "s1", some 1, some 2⟩)
      = some (.push_update "a.md")
    ∧ plan [("n.md", ⟨"n.md", "h", 1, 1⟩)] [] none
      = (renameOpsOf (detectLocalRenames [("n.md", ⟨"n.md", "h", 1, 1⟩)] [] [])
            (detectRemoteRenames [("n.md", ⟨"n.md", "h", 1, 1⟩)] [] [])
          ++ ((planAllPaths [("n.md", ⟨"n.md", "h", 1, 1⟩)] [] []).map
              (fun p =>
                if (planHandled [("n.md", ⟨"n.md", "h", 1, 1⟩)] [] []).contains p
                then none
                else specClassify p (alookup [("n.md", ⟨"n.md", "h", 1, 1⟩)] p)
                  (alookup [] p) (alookup [] p))).filterMap nonConflictPart,
         ((planAllPaths [("n.md", ⟨"n.md", "h", 1, 1⟩)] [] []).map
             (fun p =>
               if (planHandled [("n.md", ⟨"n.md", "h", 1, 1⟩)] [] []).contains p
               then none
               else specClassify p (alookup [("n.md", ⟨"n.md", "h", 1, 1⟩)] p)
                 (alookup [] p) (alookup [] p))).filterMap conflictPart) := by
  refine ⟨three_way_diff_table.1 _ _ _ _, by decide, ?_⟩
  exact three_way_diff_table.2 [("n.md", ⟨"n.md", "h", 1, 1⟩)] [] none (by decide)

/-- Witness for the amended C1 at a one-path pair of agreeing snapshots. -/
theorem planning_idempotent_witness :
    plan [("a.md", ⟨"a.md", "h", 3, 1⟩)] [("a.md", ⟨"a.md", "s", 0, 5⟩)]
      (some (buildBaseline [("a.md", ⟨"a.md", "h", 3, 1⟩)]
        [("a.md", ⟨"a.md", "s", 0, 5⟩)] (some "c"))) = ([], []) := by
  apply planning_idempotent_on_agreeing_snapshots
  intro p
  by_cases h : "a.md" = p <;> simp [alookup, h]

/-! ## C6: batched remote write collapsing -/

lemma contains_iff_mem {l : List String} {p : String} :
    l.contains p = true ↔ p ∈ l :=
  List.elem_iff

/-- The paired fold over the rename pairs splits into two independent folds. -/
lemma renameFold_split (l : List (String × String)) :
    ∀ d u, (l.foldl (fun acc r => (insertOnce acc.1 r.1, insertOnce acc.2 r.2)) (d, u))
      = ((l.map Prod.fst).foldl insertOnce d, (l.map Prod.snd).foldl insertOnce u) := by
  induction l with
  | nil => intro d u; rfl
  | cons r rest ih =>
    intro d u
    simp only [List.foldl_cons, List.map_cons]
    exact ih (insertOnce d r.1) (insertOnce u r.2)

/-- `batchSets` with the two `Set`s written out as folds. -/
lemma batchSets_eq (ops : List SyncOp) :
    batchSets ops
      = (((renameLocalPairs ops).map Prod.snd).foldl insertOnce
           ((pushUpdatePaths ops).foldl insertOnce []),
         (((renameLocalPairs ops).map Prod.fst).foldl insertOnce
             ((pushDeletePaths ops).foldl insertOnce [])).filter
           (fun p => !(((renameLocalPairs ops).map Prod.snd).foldl insertOnce
             ((pushUpdatePaths ops).foldl insertOnce [])).contains p)) := by
  simp only [batchSets, renameFold_split]

lemma not_contains_iff {l : List String} {p : String} :
    ((!(l.contains p)) = true) ↔ p ∉ l := by
  constructor
  · intro hn hc
    rw [contains_iff_mem.mpr hc] at hn
    cases hn
  · intro hnm
    cases h : l.contains p
    · rfl
    · exact absurd (contains_iff_mem.mp h) hnm

lemma batchSets_fst_mem (ops : List SyncOp) (p : String) :
    p ∈ (batchSets ops).1
      ↔ p ∈ pushUpdatePaths ops ∨ p ∈ (renameLocalPairs ops).map Prod.snd := by
  simp only [batchSets_eq]
  rw [mem_foldl_insertOnce, mem_foldl_insertOnce]
  simp [or_comm]

lemma batchSets_snd_mem (ops : List SyncOp) (p : String) :
    p ∈ (batchSets ops).2
      ↔ ((p ∈ pushDeletePaths ops ∨ p ∈ (renameLocalPairs ops).map Prod.fst)
          ∧ p ∉ (batchSets ops).1) := by
  simp only [batchSets_eq, List.mem_filter, not_contains_iff, mem_foldl_insertOnce,
    List.not_mem_nil, false_or]

/-- C6.  The batched remote write: the write set is exactly the
`push_new`/`push_update` paths plus every `rename_local` destination; the
delete set is exactly the `push_delete` paths plus every `rename_local`
source *minus* anything in the write set (write wins over a coincident
delete); and one `executeOps` run performs at most one remote transaction —
at most one `createTree`, one `createCommit` and one `updateRef` call —
however many paths the batch contains. -/
theorem batched_write_collapsing :
    (∀ (ops : List SyncOp) (p : String),
      (p ∈ (batchSets ops).1
        ↔ p ∈ pushUpdatePaths ops ∨ p ∈ (renameLocalPairs ops).map Prod.snd)
      ∧ (p ∈ (batchSets ops).2
        ↔ ((p ∈ pushDeletePaths ops ∨ p ∈ (renameLocalPairs ops).map Prod.fst)
            ∧ p ∉ (batchSets ops).1)))
    ∧ (∀ (ops : List SyncOp) (vaultRead : String → Option String),
      (executeOpsRemoteTrace ops vaultRead).count .createTree ≤ 1
      ∧ (executeOpsRemoteTrace ops vaultRead).count .createCommit ≤ 1
      ∧ (executeOpsRemoteTrace ops vaultRead).count .updateRef ≤ 1) := by
  refine ⟨fun ops p => ⟨batchSets_fst_mem ops p, batchSets_snd_mem ops p⟩,
    fun ops vaultRead => ?_⟩
  have hblobs : ∀ (updates deletes : List String) (x : RemoteCall),
      (x = .createTree ∨ x = .createCommit ∨ x = .updateRef) →
      (batchPushTrace updates deletes vaultRead).count x ≤ 1 := by
    intro updates deletes x hx
    unfold batchPushTrace
    by_cases h : ((updates.filterMap fun p =>
        (vaultRead p).map fun c => RemoteCall.createBlob p c).length
        + deletes.length == 0)
    · simp [h]
    · rw [if_neg h]
      rw [List.count_append]
      have hz : (updates.filterMap fun p =>
          (vaultRead p).map fun c => RemoteCall.createBlob p c).count x = 0 := by
        rw [List.count_eq_zero]
        intro hmem
        obtain ⟨q, hq, hqe⟩ := List.mem_filterMap.mp hmem
        obtain ⟨c, hc, hce⟩ := Option.map_eq_some'.mp hqe
        rcases hx with rfl | rfl | rfl <;> cases hce
      rw [hz]
      rcases hx with rfl | rfl | rfl <;> simp [List.count_cons]
  unfold executeOpsRemoteTrace
  by_cases h : ((batchSets ops).2.length > 0 || (batchSets ops).1.length > 0)
  · simp only [h, if_true]
    exact ⟨hblobs _ _ _ (Or.inl rfl), hblobs _ _ _ (Or.inr (Or.inl rfl)),
      hblobs _ _ _ (Or.inr (Or.inr rfl))⟩
  · simp only [h, Bool.false_eq_true, if_false]
    exact ⟨by simp, by simp, by simp⟩

/-- Witness for C6 at the spec's concrete example `push_new(x)`,
`push_delete(y)`, `rename_local(y → x)`: `x` lands in the write set only,
`y` stays in the delete set. -/
theorem batched_write_collapsing_witness :
    "x" ∈ (batchSets [.push_new "x", .push_delete "y", .rename_local "y" "x"]).1
    ∧ "x" ∉ (batchSets [.push_new "x", .push_delete "y", .rename_local "y" "x"]).2
    ∧ "y" ∈ (batchSets [.push_new "x", .push_delete "y", .rename_local "y" "x"]).2
    ∧ (executeOpsRemoteTrace [.push_new "x", .push_delete "y", .rename_local "y" "x"]
        (fun _ => some "bytes")).count .createTree ≤ 1 := by
  have h := batched_write_collapsing
  have hx : "x" ∈ (batchSets [.push_new "x", .push_delete "y", .rename_local "y" "x"]).1 :=
    (h.1 _ "x").1.mpr (Or.inl (by decide))
  refine ⟨hx, ?_, ?_, (h.2 _ _).1⟩
  · intro hc
    exact ((h.1 _ "x").2.mp hc).2 hx
  · exact (h.1 _ "y").2.mpr ⟨Or.inl (by decide), by decide⟩

/-! ## C8: partition-tolerant execution loop -/

/-- `runOps` attempts every label in order and collects exactly the failing
labels (tagged with their error message), independently of which steps
fail. -/
lemma runOps_spec (labels : List String) (oracle : String → Option String) :
    runOps labels oracle
      = (labels, labels.filterMap fun lbl =>
          (oracle lbl).map fun msg => lbl ++ ": " ++ msg) := by
  induction labels with
  | nil => rfl
  | cons lbl rest ih =>
    unfold runOps
    rw [ih]
    cases h : oracle lbl <;> simp [List.filterMap_cons, h]

/-- C8.  Every operation in the merged list is attempted, in the fixed order
of `executeLabels` (remote-renames-as-local-renames, pull-deletes, pulls,
the single batched push, the keep-both pass), no matter which steps fail;
each failing step is recorded as `label: message`; and the aggregate error —
carrying the failure count — is raised exactly when some step failed, only
after all steps ran. -/
theorem partition_tolerant_execution (ops : List SyncOp) (policy : Policy)
    (oracle : String → Option String) :
    (executeOps ops policy oracle).attempted = executeLabels ops policy
    ∧ (executeOps ops policy oracle).failures
        = (executeLabels ops policy).filterMap (fun lbl =>
            (oracle lbl).map fun msg => lbl ++ ": " ++ msg)
    ∧ ((executeOps ops policy oracle).result = .ok ()
        ↔ (executeOps ops policy oracle).failures = [])
    ∧ ((executeOps ops policy oracle).failures ≠ [] →
        (executeOps ops policy oracle).result
          = .error ("Sync failed with "
              ++ Nat.repr (executeOps ops policy oracle).failures.length
              ++ " errors.")) := by
  have hatt : (executeOps ops policy oracle).attempted = executeLabels ops policy := by
    show (runOps (executeLabels ops policy) oracle).1 = _
    rw [runOps_spec]
  have hfail : (executeOps ops policy oracle).failures
      = (executeLabels ops policy).filterMap (fun lbl =>
          (oracle lbl).map fun msg => lbl ++ ": " ++ msg) := by
    show (runOps (executeLabels ops policy) oracle).2 = _
    rw [runOps_spec]
  have hres : (executeOps ops policy oracle).result
      = if (executeOps ops policy oracle).failures.length == 0 then .ok ()
        else .error ("Sync failed with "
          ++ Nat.repr (executeOps ops policy oracle).failures.length
          ++ " errors.") := rfl
  refine ⟨hatt, hfail, ?_, ?_⟩
  · rw [hres]
    by_cases hf : (executeOps ops policy oracle).failures = []
    · simp [hf]
    · have hlen : ((executeOps ops policy oracle).failures.length == 0) = false := by
        rw [beq_eq_false_iff_ne]
        simpa [← List.length_eq_zero] using hf
      simp [hlen, hf]
  · intro hf
    have hlen : ((executeOps ops policy oracle).failures.length == 0) = false := by
      rw [beq_eq_false_iff_ne]
      simpa [← List.length_eq_zero] using hf
    rw [hres, hlen]
    simp

/-- Witness for C8: a two-op run whose first step fails still attempts the
second, records the tagged failure and raises the counted aggregate. -/
theorem partition_tolerant_execution_witness :
    (executeOps [.pull_delete "a.md", .pull_new "b.md"] .manual
        (fun lbl => if lbl = "pull_delete a.md" then some "boom" else none)).attempted
      = ["pull_delete a.md", "pull_new b.md"]
    ∧ (executeOps [.pull_delete "a.md", .pull_new "b.md"] .manual
        (fun lbl => if lbl = "pull_delete a.md" then some "boom" else none)).failures
      = ["pull_delete a.md: boom"]
    ∧ (executeOps [.pull_delete "a.md", .pull_new "b.md"] .manual
        (fun lbl => if lbl = "pull_delete a.md" then some "boom" else none)).result
      = .error "Sync failed with 1 errors." := by
  have h := partition_tolerant_execution [.pull_delete "a.md", .pull_new "b.md"] .manual
    (fun lbl => if lbl = "pull_delete a.md" then some "boom" else none)
  refine ⟨h.1.trans (by decide), h.2.1.trans (by decide), ?_⟩
  have h3 := h.2.2.2 (by
    rw [h.2.1]
    decide)
  rw [h.2.1] at h3
  exact h3.trans (by rfl)

/-! ## C7: behaviour of `sync` under partial failure (corrected) -/

/-- A non-empty failure list makes `executeOps` return the counted aggregate
error. -/
lemma executeOps_error_of_failures {ops : List SyncOp} {policy : Policy}
    {oracle : String → Option String}
    (hf : (executeOps ops policy oracle).failures ≠ []) :
    (executeOps ops policy oracle).result
      = .error ("Sync failed with "
          ++ Nat.repr (executeOps ops policy oracle).failures.length
          ++ " errors.") := by
  have hlen : ((executeOps ops policy oracle).failures.length == 0) = false := by
    rw [beq_eq_false_iff_ne]
    simpa [← List.length_eq_zero] using hf
  show (if ((runOps (executeLabels ops policy) oracle).2.length == 0) = true
    then _ else _) = _
  rw [show ((runOps (executeLabels ops policy) oracle).2.length == 0) = false
    from hlen]
  rfl

/-- Counterexample to C7 as stated: a run whose single operation fails does
raise the counted aggregate error, but the freshly rebuilt baseline is *not*
persisted — the store still holds the pre-run baseline (`none` here), not
the baseline rebuilt from the post-execution snapshots. -/
theorem partial_failure_cex :
    (syncModel none [("a.md", ⟨"a.md", "h", 1, 1⟩)] [] .manual "t"
        (fun _ => some "boom") [("a.md", ⟨"a.md", "h", 1, 1⟩)]
        [("a.md", ⟨"a.md", "s", 0, 1⟩)] (some "c2")).result
      = .error "Sync failed with 1 errors."
    ∧ (syncModel none [("a.md", ⟨"a.md", "h", 1, 1⟩)] [] .manual "t"
        (fun _ => some "boom") [("a.md", ⟨"a.md", "h", 1, 1⟩)]
        [("a.md", ⟨"a.md", "s", 0, 1⟩)] (some "c2")).storedBaseline = none
    ∧ (syncModel none [("a.md", ⟨"a.md", "h", 1, 1⟩)] [] .manual "t"
        (fun _ => some "boom") [("a.md", ⟨"a.md", "h", 1, 1⟩)]
        [("a.md", ⟨"a.md", "s", 0, 1⟩)] (some "c2")).storedBaseline
      ≠ some (buildBaseline [("a.md", ⟨"a.md", "h", 1, 1⟩)]
          [("a.md", ⟨"a.md", "s", 0, 1⟩)] (some "c2")) := by
  refine ⟨rfl, rfl, by decide⟩

/-- C7 (amended).  When at least one operation fails, `sync` fails with the
aggregate error carrying the failure count, conflict records are still
persisted, every step was still attempted and nothing is rolled back — but
the baseline rebuild stage is skipped: the store keeps the pre-run baseline
instead of a baseline rebuilt from the post-execution snapshots. -/
theorem partial_failure_skips_baseline_rebuild (prior : Option SyncBaseline)
    (localIdx : LocalIndex) (remoteIdx : RemoteIndex) (policy : Policy)
    (now : String) (oracle : String → Option String) (updatedLocal : LocalIndex)
    (updatedRemote : RemoteIndex) (sha : Option String)
    (hfail : (executeOps (syncFinalOps prior localIdx remoteIdx policy now)
        policy oracle).failures ≠ []) :
    (syncModel prior localIdx remoteIdx policy now oracle updatedLocal
        updatedRemote sha).result
      = .error ("Sync failed with "
          ++ Nat.repr (executeOps (syncFinalOps prior localIdx remoteIdx policy now)
              policy oracle).failures.length
          ++ " errors.")
    ∧ (syncModel prior localIdx remoteIdx policy now oracle updatedLocal
        updatedRemote sha).storedBaseline = prior
    ∧ (syncModel prior localIdx remoteIdx policy now oracle updatedLocal
        updatedRemote sha).storedConflicts
      = syncRecords prior localIdx remoteIdx policy now
    ∧ (syncModel prior localIdx remoteIdx policy now oracle updatedLocal
        updatedRemote sha).attempted
      = executeLabels (syncFinalOps prior localIdx remoteIdx policy now) policy := by
  have hres := executeOps_error_of_failures hfail
  have hatt : (executeOps (syncFinalOps prior localIdx remoteIdx policy now)
      policy oracle).attempted
      = executeLabels (syncFinalOps prior localIdx remoteIdx policy now) policy := by
    show (runOps _ oracle).1 = _
    rw [runOps_spec]
  simp only [syncModel]
  rw [hres]
  exact ⟨rfl, rfl, rfl, hatt⟩

/-- Witness for the amended C7, at the counterexample's concrete input. -/
theorem partial_failure_skips_baseline_rebuild_witness :
    (syncModel none [("a.md", ⟨"a.md", "h", 1, 1⟩)] [] .manual "t"
        (fun _ => some "boom") [] [] none).storedBaseline = none
    ∧ (syncModel none [("a.md", ⟨"a.md", "h", 1, 1⟩)] [] .manual "t"
        (fun _ => some "boom") [] [] none).result
      = .error ("Sync failed with "
          ++ Nat.repr (executeOps (syncFinalOps none [("a.md", ⟨"a.md", "h", 1, 1⟩)]
              [] .manual "t") .manual (fun _ => some "boom")).failures.length
          ++ " errors.") := by
  have h := partial_failure_skips_baseline_rebuild none
    [("a.md", ⟨"a.md", "h", 1, 1⟩)] [] .manual "t" (fun _ => some "boom") [] [] none
    (by decide)
  exact ⟨h.2.1, h.1⟩

/-! ## C4: rename inference -/

/-- The paths an op mentions (a rename mentions its two endpoints, every
other op its single path). -/
def opMentions (op : SyncOp) (x : String) : Bool :=
  match op with
  | .pull_new p => p == x
  | .pull_update p => p == x
  | .pull_delete p => p == x
  | .push_new p => p == x
  | .push_update p => p == x
  | .push_delete p => p == x
  | .conflict p _ => p == x
  | .rename_local f t => f == x || t == x
  | .rename_remote f t => f == x || t == x

/-- How often a path is mentioned across a plan's ops and conflicts. -/
def mentionCount (pl : List SyncOp × List SyncOp) (x : String) : Nat :=
  (pl.1 ++ pl.2).countP (fun op => opMentions op x)

/-- Soundness of the greedy matcher: every emitted pair consists of a deleted
candidate and a matching added candidate not yet used. -/
lemma matchRenamesAux_sound (added : List RenameCand) :
    ∀ (deleted : List RenameCand) (used : List String) (pr : String × String),
    pr ∈ matchRenamesAux deleted added used →
    ∃ del ∈ deleted, del.path = pr.1
      ∧ ∃ ad ∈ added, ad.path = pr.2 ∧ candMatch del ad = true ∧ pr.2 ∉ used := by
  intro deleted
  induction deleted with
  | nil => intro used pr h; cases h
  | cons del rest ih =>
    intro used pr h
    unfold matchRenamesAux at h
    cases hfind : added.find? (fun e => !used.contains e.path && candMatch del e) with
    | some m =>
      rw [hfind] at h
      have hm := List.find?_some hfind
      have hmem := List.mem_of_find?_eq_some hfind
      rw [Bool.and_eq_true] at hm
      have hnu : pr.2 ∉ used → True := fun _ => trivial
      cases h with
      | head =>
        refine ⟨del, List.mem_cons_self .., rfl, m, hmem, rfl, hm.2, ?_⟩
        intro hc
        rw [contains_iff_mem.mpr hc] at hm
        cases hm.1
      | tail _ htail =>
        obtain ⟨d, hd, hdp, ad, ha, hap, hmatch, hnotin⟩ := ih (m.path :: used) pr htail
        exact ⟨d, List.mem_cons_of_mem _ hd, hdp, ad, ha, hap, hmatch,
          fun hc => hnotin (List.mem_cons_of_mem _ hc)⟩
    | none =>
      rw [hfind] at h
      obtain ⟨d, hd, hdp, ad, ha, hap, hmatch, hnotin⟩ := ih used pr h
      exact ⟨d, List.mem_cons_of_mem _ hd, hdp, ad, ha, hap, hmatch, hnotin⟩

/-- Each added candidate is used at most once: the destinations of the
emitted pairs are pairwise distinct (and avoid the already-used set). -/
lemma matchRenamesAux_snd_nodup (added : List RenameCand) :
    ∀ (deleted : List RenameCand) (used : List String),
    ((matchRenamesAux deleted added used).map Prod.snd).Nodup
      ∧ ∀ pr ∈ matchRenamesAux deleted added used, pr.2 ∉ used := by
  intro deleted
  induction deleted with
  | nil => intro used; exact ⟨List.nodup_nil, fun pr h => absurd h (List.not_mem_nil pr)⟩
  | cons del rest ih =>
    intro used
    unfold matchRenamesAux
    cases hfind : added.find? (fun e => !used.contains e.path && candMatch del e) with
    | some m =>
      have hm := List.find?_some hfind
      rw [Bool.and_eq_true] at hm
      have hmu : m.path ∉ used := by
        intro hc
        rw [contains_iff_mem.mpr hc] at hm
        cases hm.1
      obtain ⟨hnd, hnu⟩ := ih (m.path :: used)
      constructor
      · rw [List.map_cons, List.nodup_cons]
        refine ⟨?_, hnd⟩
        intro hc
        obtain ⟨pr, hpr, hpe⟩ := List.mem_map.mp hc
        exact hnu pr hpr (hpe ▸ List.mem_cons_self ..)
      · intro pr hpr
        cases hpr with
        | head => exact hmu
        | tail _ htail =>
          exact fun hc => hnu pr htail (List.mem_cons_of_mem _ hc)
    | none =>
      obtain ⟨hnd, hnu⟩ := ih used
      exact ⟨hnd, hnu⟩

/-- The sources of the emitted pairs are drawn in order from the deleted
candidates. -/
lemma matchRenamesAux_fst_sublist (added : List RenameCand) :
    ∀ (deleted : List RenameCand) (used : List String),
    ((matchRenamesAux deleted added used).map Prod.fst).Sublist
      (deleted.map RenameCand.path) := by
  intro deleted
  induction deleted with
  | nil => intro used; exact List.Sublist.refl []
  | cons del rest ih =>
    intro used
    unfold matchRenamesAux
    cases hfind : added.find? (fun e => !used.contains e.path && candMatch del e) with
    | some m => exact List.Sublist.cons₂ del.path (ih (m.path :: used))
    | none => exact List.Sublist.cons del.path (ih used)

/-- A `filterMap` whose results keep the input's key, projected back to the
keys, is a sublist of the input keys. -/
lemma filterMap_path_sublist {α β : Type} (f : α → Option β) (g : β → String)
    (h' : α → String) (l : List α) (hf : ∀ a b, f a = some b → g b = h' a) :
    ((l.filterMap f).map g).Sublist (l.map h') := by
  induction l with
  | nil => exact List.Sublist.refl []
  | cons a rest ih =>
    rw [List.filterMap_cons]
    cases hfa : f a with
    | none => exact List.Sublist.cons (h' a) ih
    | some b =>
      rw [List.map_cons, List.map_cons, hf a b hfa]
      exact List.Sublist.cons₂ (h' a) ih

lemma containsKey_false_iff {α : Type} {l : List (String × α)} {p : String} :
    containsKey l p = false ↔ alookup l p = none := by
  unfold containsKey
  cases alookup l p <;> simp

lemma strTruthy_iff {o : Option String} :
    strTruthy o = true ↔ ∃ s, o = some s ∧ s ≠ "" := by
  cases o <;> simp [strTruthy]

lemma bool_not_true {b : Bool} (h : (!b) = true) : b = false := by
  cases b
  · rfl
  · cases h

/-- Every pair emitted by `detectLocalRenames` satisfies the claim's
hypothesis pattern: a baseline path with content hash `h` and an object id
still present unchanged on the remote, gone from local, paired with a
baseline-free local path carrying the same hash `h`. -/
lemma detectLocalRenames_sound {localIdx : LocalIndex} {remoteIdx : RemoteIndex}
    {bents : BaselineEntries} (hl : (localIdx.map Prod.fst).Nodup)
    (hb : (bents.map Prod.fst).Nodup) {f t : String}
    (h : (f, t) ∈ detectLocalRenames localIdx remoteIdx bents) :
    ∃ e l r, alookup bents f = some e ∧ alookup localIdx f = none
      ∧ alookup remoteIdx f = some r ∧ e.sha = some r.sha
      ∧ alookup localIdx t = some l ∧ alookup bents t = none
      ∧ e.hash = some l.hash ∧ l.hash ≠ "" := by
  have h' : (f, t) ∈ matchRenamesAux
      (bents.filterMap fun pe =>
        if !containsKey localIdx pe.1 && strTruthy pe.2.hash then
          match alookup remoteIdx pe.1 with
          | some r =>
            if pe.2.sha == some r.sha then
              some { path := pe.1, hash := pe.2.hash, sha := none : RenameCand }
            else none
          | none => none
        else none)
      (localIdx.filterMap fun pe =>
        if !containsKey bents pe.1 then
          some { path := pe.1, hash := some pe.2.hash, sha := none : RenameCand }
        else none)
      [] := h
  obtain ⟨del, hdel, hdelp, ad, had, hadp, hmatch, -⟩ :=
    matchRenamesAux_sound _ _ _ _ h'
  obtain ⟨pe, hpe, hpef⟩ := List.mem_filterMap.mp hdel
  obtain ⟨pe', hpe', hpef'⟩ := List.mem_filterMap.mp had
  cases hcond : (!containsKey localIdx pe.1 && strTruthy pe.2.hash) with
  | false => rw [hcond] at hpef; cases hpef
  | true =>
    rw [hcond, if_pos rfl] at hpef
    cases hrem : alookup remoteIdx pe.1 with
    | none => rw [hrem] at hpef; cases hpef
    | some r =>
      rw [hrem] at hpef
      have hpef2 : (if (pe.2.sha == some r.sha) = true then
          some { path := pe.1, hash := pe.2.hash, sha := none : RenameCand }
          else none) = some del := hpef
      clear hpef
      cases hsha : (pe.2.sha == some r.sha) with
      | false => rw [hsha] at hpef2; cases hpef2
      | true =>
        rw [hsha, if_pos rfl] at hpef2
        rename' hpef2 => hpef
        cases hcond' : (!containsKey bents pe'.1) with
        | false => rw [hcond'] at hpef'; cases hpef'
        | true =>
          rw [hcond', if_pos rfl] at hpef'
          injection hpef with hpef
          injection hpef' with hpef'
          subst hpef
          subst hpef'
          rw [Bool.and_eq_true] at hcond
          obtain ⟨hcl, hth⟩ := hcond
          have hcl' : alookup localIdx pe.1 = none :=
            containsKey_false_iff.mp (bool_not_true hcl)
          have hcb' : alookup bents pe'.1 = none :=
            containsKey_false_iff.mp (bool_not_true hcond')
          have hff : pe.1 = f := hdelp
          have htt : pe'.1 = t := hadp
          obtain ⟨h0, hh0, hne0⟩ := strTruthy_iff.mp hth
          -- the matcher must have taken the hash branch
          rw [show candMatch { path := pe.1, hash := pe.2.hash, sha := none }
              { path := pe'.1, hash := some pe'.2.hash, sha := none }
            = (if strTruthy pe.2.hash && strTruthy (some pe'.2.hash)
               then pe.2.hash == some pe'.2.hash
               else if strTruthy (none : Option String)
                   && strTruthy (none : Option String)
                 then (none : Option String) == (none : Option String)
                 else false) from rfl] at hmatch
          rw [hth] at hmatch
          cases hst : strTruthy (some pe'.2.hash) with
          | false =>
            rw [hst] at hmatch
            simp [strTruthy] at hmatch
          | true =>
            rw [hst] at hmatch
            simp only [Bool.and_self, if_true] at hmatch
            have heq : pe.2.hash = some pe'.2.hash := by
              have := eq_of_beq hmatch
              exact this
            refine ⟨pe.2, pe'.2, r, ?_, ?_, ?_, ?_, ?_, ?_, ?_, ?_⟩
            · rw [← hff]; exact alookup_of_mem_nodup hb hpe
            · rw [← hff]; exact hcl'
            · rw [← hff]; exact hrem
            · exact eq_of_beq hsha
            · rw [← htt]; exact alookup_of_mem_nodup hl hpe'
            · rw [← htt]; exact hcb'
            · exact heq
            · intro hc
              rw [hh0] at heq
              injection heq with heq'
              rw [← heq'] at hc
              exact hne0 hc

/-- Every pair emitted by `detectRemoteRenames` satisfies the symmetric
pattern: a baseline path gone from remote whose local copy still has the
baseline hash, paired with a remote path (absent from baseline and local)
carrying the same object id. -/
lemma detectRemoteRenames_sound {localIdx : LocalIndex} {remoteIdx : RemoteIndex}
    {bents : BaselineEntries} (hr : (remoteIdx.map Prod.fst).Nodup)
    (hb : (bents.map Prod.fst).Nodup) {f t : String}
    (h : (f, t) ∈ detectRemoteRenames localIdx remoteIdx bents) :
    ∃ e l r', alookup bents f = some e ∧ alookup remoteIdx f = none
      ∧ alookup localIdx f = some l ∧ e.hash = some l.hash
      ∧ alookup remoteIdx t = some r' ∧ alookup bents t = none
      ∧ alookup localIdx t = none ∧ e.sha = some r'.sha ∧ r'.sha ≠ "" := by
  have h' : (f, t) ∈ matchRenamesAux
      (bents.filterMap fun pe =>
        match alookup remoteIdx pe.1, alookup localIdx pe.1 with
        | none, some l =>
          if pe.2.hash == some l.hash && strTruthy pe.2.sha then
            some { path := pe.1, hash := none, sha := pe.2.sha : RenameCand }
          else none
        | _, _ => none)
      (remoteIdx.filterMap fun pe =>
        if !containsKey bents pe.1 && !containsKey localIdx pe.1 then
          some { path := pe.1, hash := none, sha := some pe.2.sha : RenameCand }
        else none)
      [] := h
  obtain ⟨del, hdel, hdelp, ad, had, hadp, hmatch, -⟩ :=
    matchRenamesAux_sound _ _ _ _ h'
  obtain ⟨pe, hpe, hpef⟩ := List.mem_filterMap.mp hdel
  obtain ⟨pe', hpe', hpef'⟩ := List.mem_filterMap.mp had
  cases hrem : alookup remoteIdx pe.1 with
  | some r0 =>
    rw [hrem] at hpef
    cases (show (none : Option RenameCand) = some del from hpef)
  | none =>
    rw [hrem] at hpef
    cases hloc : alookup localIdx pe.1 with
    | none =>
      rw [hloc] at hpef
      cases (show (none : Option RenameCand) = some del from hpef)
    | some l =>
      rw [hloc] at hpef
      have hpef2 : (if (pe.2.hash == some l.hash && strTruthy pe.2.sha) = true then
          some { path := pe.1, hash := none, sha := pe.2.sha : RenameCand }
          else none) = some del := hpef
      clear hpef
      cases hcc : (pe.2.hash == some l.hash && strTruthy pe.2.sha) with
      | false => rw [hcc] at hpef2; cases hpef2
      | true =>
        rw [hcc, if_pos rfl] at hpef2
        cases hcond' : (!containsKey bents pe'.1 && !containsKey localIdx pe'.1) with
        | false => rw [hcond'] at hpef'; cases hpef'
        | true =>
          rw [hcond', if_pos rfl] at hpef'
          injection hpef2 with hpef2
          injection hpef' with hpef'
          subst hpef2
          subst hpef'
          rw [Bool.and_eq_true] at hcc hcond'
          obtain ⟨hhash, hsh⟩ := hcc
          obtain ⟨hcb, hcl⟩ := hcond'
          have hff : pe.1 = f := hdelp
          have htt : pe'.1 = t := hadp
          obtain ⟨s, hs, hsne⟩ := strTruthy_iff.mp hsh
          -- the matcher must have taken the sha branch
          rw [show candMatch { path := pe.1, hash := none, sha := pe.2.sha }
              { path := pe'.1, hash := none, sha := some pe'.2.sha }
            = (if strTruthy (none : Option String) && strTruthy (none : Option String)
               then (none : Option String) == (none : Option String)
               else if strTruthy pe.2.sha && strTruthy (some pe'.2.sha)
                 then pe.2.sha == some pe'.2.sha
                 else false) from rfl] at hmatch
          rw [hsh] at hmatch
          cases hst : strTruthy (some pe'.2.sha) with
          | false =>
            rw [hst] at hmatch
            simp [strTruthy] at hmatch
          | true =>
            rw [hst] at hmatch
            simp only [strTruthy, Bool.false_and, Bool.and_self, if_true,
              Bool.false_eq_true, if_false] at hmatch
            have heq : pe.2.sha = some pe'.2.sha := eq_of_beq hmatch
            refine ⟨pe.2, l, pe'.2, ?_, ?_, ?_, ?_, ?_, ?_, ?_, ?_, ?_⟩
            · rw [← hff]; exact alookup_of_mem_nodup hb hpe
            · rw [← hff]; exact hrem
            · rw [← hff]; exact hloc
            · exact eq_of_beq hhash
            · rw [← htt]; exact alookup_of_mem_nodup hr hpe'
            · rw [← htt]; exact containsKey_false_iff.mp (bool_not_true hcb)
            · rw [← htt]; exact containsKey_false_iff.mp (bool_not_true hcl)
            · exact heq
            · intro hc
              rw [hs] at heq
              injection heq with heq'
              rw [← heq'] at hc
              exact hsne hc

/-- A per-path diff contribution only ever mentions its own path. -/
lemma diffPath_mentions {p : String} {lE : Option LocalEntry}
    {rE : Option RemoteEntry} {bE : Option BaselineEntry} {op : SyncOp}
    {x : String} (hd : diffPath p lE rE bE = some op)
    (hm : opMentions op x = true) : x = p := by
  have hsingle : ∀ q : String, op = .push_new q ∨ op = .pull_new q
      ∨ op = .push_update q ∨ op = .pull_update q ∨ op = .pull_delete q
      ∨ (∃ reason, op = .conflict q reason) → x = q → x = p → x = p := fun _ _ _ h => h
  clear hsingle
  cases bE with
  | none =>
    cases lE with
    | some l =>
      cases rE with
      | none =>
        injection hd with hd
        subst hd
        exact (eq_of_beq hm).symm
      | some r =>
        injection hd with hd
        subst hd
        exact (eq_of_beq hm).symm
    | none =>
      cases rE with
      | none => cases hd
      | some r =>
        injection hd with hd
        subst hd
        exact (eq_of_beq hm).symm
  | some be =>
    cases lE with
    | some l =>
      cases rE with
      | some r =>
        have hd2 : (if hasLocalChanged l be && hasRemoteChanged r be then
            some (SyncOp.conflict p "modify-modify")
          else if hasLocalChanged l be then some (.push_update p)
          else if hasRemoteChanged r be then some (.pull_update p)
          else none) = some op := hd
        cases h1 : (hasLocalChanged l be && hasRemoteChanged r be) with
        | true =>
          rw [h1, if_pos rfl] at hd2
          injection hd2 with hd2
          subst hd2
          exact (eq_of_beq hm).symm
        | false =>
          rw [h1] at hd2
          simp only [Bool.false_eq_true, if_false] at hd2
          cases h2 : hasLocalChanged l be with
          | true =>
            rw [h2, if_pos rfl] at hd2
            injection hd2 with hd2
            subst hd2
            exact (eq_of_beq hm).symm
          | false =>
            rw [h2] at hd2
            simp only [Bool.false_eq_true, if_false] at hd2
            cases h3 : hasRemoteChanged r be with
            | true =>
              rw [h3, if_pos rfl] at hd2
              injection hd2 with hd2
              subst hd2
              exact (eq_of_beq hm).symm
            | false =>
              rw [h3] at hd2
              simp only [Bool.false_eq_true, if_false] at hd2
              cases hd2
      | none =>
        have hd2 : (if hasLocalChanged l be then
            some (SyncOp.conflict p "delete-modify-remote")
          else some (.pull_delete p)) = some op := hd
        cases h1 : hasLocalChanged l be with
        | true =>
          rw [h1, if_pos rfl] at hd2
          injection hd2 with hd2
          subst hd2
          exact (eq_of_beq hm).symm
        | false =>
          rw [h1] at hd2
          simp only [Bool.false_eq_true, if_false] at hd2
          injection hd2 with hd2
          subst hd2
          exact (eq_of_beq hm).symm
    | none =>
      cases rE with
      | some r =>
        have hd2 : (if hasRemoteChanged r be then
            some (SyncOp.conflict p "delete-modify-local")
          else some (.conflict p "local-missing-remote")) = some op := hd
        cases h1 : hasRemoteChanged r be with
        | true =>
          rw [h1, if_pos rfl] at hd2
          injection hd2 with hd2
          subst hd2
          exact (eq_of_beq hm).symm
        | false =>
          rw [h1] at hd2
          simp only [Bool.false_eq_true, if_false] at hd2
          injection hd2 with hd2
          subst hd2
          exact (eq_of_beq hm).symm
      | none => cases hd

/-- The elements of `handledPathsOf` are exactly the pair components. -/
lemma mem_foldr_pairs {x : String} :
    ∀ l : List (String × String),
    x ∈ l.foldr (fun r acc => r.1 :: r.2 :: acc) [] ↔ ∃ pr ∈ l, x = pr.1 ∨ x = pr.2 := by
  intro l
  induction l with
  | nil => simp
  | cons pr rest ih =>
    simp only [List.foldr_cons, List.mem_cons, ih]
    constructor
    · rintro (h | h | ⟨q, hq, hx⟩)
      · exact ⟨pr, Or.inl rfl, Or.inl h⟩
      · exact ⟨pr, Or.inl rfl, Or.inr h⟩
      · exact ⟨q, Or.inr hq, hx⟩
    · rintro ⟨q, rfl | hq, hx⟩
      · rcases hx with h | h
        · exact Or.inl h
        · exact Or.inr (Or.inl h)
      · exact Or.inr (Or.inr ⟨q, hq, hx⟩)

lemma mem_handledPathsOf {L R : List (String × String)} {x : String} :
    x ∈ handledPathsOf L R ↔ ∃ pr ∈ L ++ R, x = pr.1 ∨ x = pr.2 :=
  mem_foldr_pairs (L ++ R)

/-- A contribution mentioning `x` comes from the unhandled path `x` itself. -/
lemma planContribution_mentions {localIdx : LocalIndex} {remoteIdx : RemoteIndex}
    {bents : BaselineEntries} {p x : String} {op : SyncOp}
    (hc : planContribution localIdx remoteIdx bents p = some op)
    (hm : opMentions op x = true) :
    x = p ∧ (planHandled localIdx remoteIdx bents).contains p = false := by
  unfold planContribution at hc
  cases hcont : (planHandled localIdx remoteIdx bents).contains p with
  | true => rw [hcont, if_pos rfl] at hc; cases hc
  | false =>
    rw [hcont] at hc
    simp only [Bool.false_eq_true, if_false] at hc
    exact ⟨diffPath_mentions hc hm, rfl⟩

/-- Counting helper: a list of pair-built ops mentions `x` exactly once when
`x` occurs exactly once among the first components and never among the
second. -/
lemma countP_pairs_fst_one (L : List (String × String)) (x : String)
    (mk : String → String → SyncOp)
    (hmk : ∀ a b y, opMentions (mk a b) y = (a == y || b == y))
    (hnd : (L.map Prod.fst).Nodup) (hmem : x ∈ L.map Prod.fst)
    (hsnd : ∀ pr ∈ L, pr.2 ≠ x) :
    (L.map (fun r => mk r.1 r.2)).countP (fun op => opMentions op x) = 1 := by
  rw [List.countP_map]
  have hcong : ∀ pr ∈ L, ((fun op => opMentions op x) ∘ fun r => mk r.1 r.2) pr = true
      ↔ ((fun r : String × String => r.1 == x) pr) = true := by
    intro pr hpr
    show opMentions (mk pr.1 pr.2) x = true ↔ (pr.1 == x) = true
    rw [hmk]
    constructor
    · intro h
      rcases Bool.or_eq_true .. ▸ h with h' | h'
      · exact h'
      · exact absurd (eq_of_beq h') (hsnd pr hpr)
    · intro h
      rw [Bool.or_eq_true]
      exact Or.inl h
  rw [List.countP_congr hcong]
  have : L.countP (fun r => r.1 == x) = (L.map Prod.fst).countP (· == x) := by
    rw [List.countP_map]
    rfl
  rw [this, ← List.count_eq_countP, List.count_eq_one_of_mem hnd hmem]

/-- Counting helper, symmetric: exactly once among the second components. -/
lemma countP_pairs_snd_one (L : List (String × String)) (x : String)
    (mk : String → String → SyncOp)
    (hmk : ∀ a b y, opMentions (mk a b) y = (a == y || b == y))
    (hnd : (L.map Prod.snd).Nodup) (hmem : x ∈ L.map Prod.snd)
    (hfst : ∀ pr ∈ L, pr.1 ≠ x) :
    (L.map (fun r => mk r.1 r.2)).countP (fun op => opMentions op x) = 1 := by
  rw [List.countP_map]
  have hcong : ∀ pr ∈ L, ((fun op => opMentions op x) ∘ fun r => mk r.1 r.2) pr = true
      ↔ ((fun r : String × String => r.2 == x) pr) = true := by
    intro pr hpr
    show opMentions (mk pr.1 pr.2) x = true ↔ (pr.2 == x) = true
    rw [hmk]
    constructor
    · intro h
      rcases Bool.or_eq_true .. ▸ h with h' | h'
      · exact absurd (eq_of_beq h') (hfst pr hpr)
      · exact h'
    · intro h
      rw [Bool.or_eq_true]
      exact Or.inr h
  rw [List.countP_congr hcong]
  have : L.countP (fun r => r.2 == x) = (L.map Prod.snd).countP (· == x) := by
    rw [List.countP_map]
    rfl
  rw [this, ← List.count_eq_countP, List.count_eq_one_of_mem hnd hmem]

/-- Counting helper: zero mentions when `x` avoids both components. -/
lemma countP_pairs_zero (L : List (String × String)) (x : String)
    (mk : String → String → SyncOp)
    (hmk : ∀ a b y, opMentions (mk a b) y = (a == y || b == y))
    (h : ∀ pr ∈ L, pr.1 ≠ x ∧ pr.2 ≠ x) :
    (L.map (fun r => mk r.1 r.2)).countP (fun op => opMentions op x) = 0 := by
  rw [List.countP_eq_zero]
  intro op hop
  obtain ⟨pr, hpr, rfl⟩ := List.mem_map.mp hop
  rw [hmk]
  intro hcon
  rcases Bool.or_eq_true .. ▸ hcon with h' | h'
  · exact (h pr hpr).1 (eq_of_beq h')
  · exact (h pr hpr).2 (eq_of_beq h')

lemma localRenameDeleted_path_sublist (localIdx : LocalIndex)
    (remoteIdx : RemoteIndex) (bents : BaselineEntries) :
    ((localRenameDeleted localIdx remoteIdx bents).map RenameCand.path).Sublist
      (bents.map Prod.fst) := by
  unfold localRenameDeleted
  apply filterMap_path_sublist
  intro a y hay
  cases hc : (!containsKey localIdx a.1 && strTruthy a.2.hash) with
  | false => rw [hc] at hay; cases hay
  | true =>
    rw [hc, if_pos rfl] at hay
    cases hrem : alookup remoteIdx a.1 with
    | none => rw [hrem] at hay; cases hay
    | some r =>
      rw [hrem] at hay
      have hay2 : (if (a.2.sha == some r.sha) = true then
          some { path := a.1, hash := a.2.hash, sha := none : RenameCand }
          else none) = some y := hay
      cases hs : (a.2.sha == some r.sha) with
      | false => rw [hs] at hay2; cases hay2
      | true =>
        rw [hs, if_pos rfl] at hay2
        injection hay2 with hay2
        rw [← hay2]

lemma remoteRenameDeleted_path_sublist (localIdx : LocalIndex)
    (remoteIdx : RemoteIndex) (bents : BaselineEntries) :
    ((remoteRenameDeleted localIdx remoteIdx bents).map RenameCand.path).Sublist
      (bents.map Prod.fst) := by
  unfold remoteRenameDeleted
  apply filterMap_path_sublist
  intro a y hay
  cases hrem : alookup remoteIdx a.1 with
  | some r0 =>
    rw [hrem] at hay
    cases (show (none : Option RenameCand) = some y from hay)
  | none =>
    rw [hrem] at hay
    cases hloc : alookup localIdx a.1 with
    | none =>
      rw [hloc] at hay
      cases (show (none : Option RenameCand) = some y from hay)
    | some l =>
      rw [hloc] at hay
      have hay2 : (if (a.2.hash == some l.hash && strTruthy a.2.sha) = true then
          some { path := a.1, hash := none, sha := a.2.sha : RenameCand }
          else none) = some y := hay
      cases hs : (a.2.hash == some l.hash && strTruthy a.2.sha) with
      | false => rw [hs] at hay2; cases hay2
      | true =>
        rw [hs, if_pos rfl] at hay2
        injection hay2 with hay2
        rw [← hay2]

lemma nonConflictPart_some {c : Option SyncOp} {op : SyncOp}
    (h : nonConflictPart c = some op) : c = some op := by
  cases c with
  | none => cases h
  | some op' =>
    show some op' = some op
    have h2 : (if isConflictOp op' then none else some op') = some op := h
    cases hic : isConflictOp op' with
    | true => rw [hic, if_pos rfl] at h2; cases h2
    | false =>
      rw [hic] at h2
      simpa using h2

lemma conflictPart_some {c : Option SyncOp} {op : SyncOp}
    (h : conflictPart c = some op) : c = some op := by
  cases c with
  | none => cases h
  | some op' =>
    show some op' = some op
    have h2 : (if isConflictOp op' then some op' else none) = some op := h
    cases hic : isConflictOp op' with
    | true =>
      rw [hic, if_pos rfl] at h2
      simpa using h2
    | false => rw [hic] at h2; simp at h2

/-- A rename-handled path is mentioned by no per-path diff contribution. -/
lemma diff_part_zero {localIdx : LocalIndex} {remoteIdx : RemoteIndex}
    {bents : BaselineEntries} {x : String}
    (hx : x ∈ planHandled localIdx remoteIdx bents)
    (part : Option SyncOp → Option SyncOp)
    (hpart : ∀ c op, part c = some op → c = some op) :
    (((planAllPaths localIdx remoteIdx bents).map
        (planContribution localIdx remoteIdx bents)).filterMap part).countP
      (fun op => opMentions op x) = 0 := by
  rw [List.countP_eq_zero]
  intro op hop hmen
  obtain ⟨c, hc, hce⟩ := List.mem_filterMap.mp hop
  obtain ⟨p, hp, rfl⟩ := List.mem_map.mp hc
  have hcp := hpart _ _ hce
  obtain ⟨rfl, hnc⟩ := planContribution_mentions hcp hmen
  rw [contains_iff_mem.mpr hx] at hnc
  cases hnc

/-- Decomposition of a plan's mention count into its four segments. -/
lemma mentionCount_planMain (localIdx : LocalIndex) (remoteIdx : RemoteIndex)
    (bents : BaselineEntries) (x : String) :
    mentionCount (planMain localIdx remoteIdx bents) x
      = ((detectLocalRenames localIdx remoteIdx bents).map
          (fun r => SyncOp.rename_local r.1 r.2)).countP (fun op => opMentions op x)
        + ((detectRemoteRenames localIdx remoteIdx bents).map
            (fun r => SyncOp.rename_remote r.1 r.2)).countP (fun op => opMentions op x)
        + (((planAllPaths localIdx remoteIdx bents).map
            (planContribution localIdx remoteIdx bents)).filterMap
            nonConflictPart).countP (fun op => opMentions op x)
        + (((planAllPaths localIdx remoteIdx bents).map
            (planContribution localIdx remoteIdx bents)).filterMap
            conflictPart).countP (fun op => opMentions op x) := by
  unfold mentionCount planMain renameOpsOf
  rw [List.countP_append, List.countP_append, List.countP_append]

/-- C4.  Rename inference: every pair matched by `detectLocalRenames`
satisfies the claim's pattern (baseline path with hash `h` and unchanged
remote object id, gone from local, paired with a baseline-free local path of
hash `h`); symmetrically for `detectRemoteRenames`; each added candidate is
used at most once (the destinations are pairwise distinct); and each matched
pair contributes exactly one `rename_local`/`rename_remote` op to the plan
while its two paths are excluded from the per-path diff, appearing in no
other op or conflict — their total mention count across the whole plan is
exactly one. -/
theorem rename_inference (localIdx : LocalIndex) (remoteIdx : RemoteIndex)
    (b : SyncBaseline) (hl : (localIdx.map Prod.fst).Nodup)
    (hr : (remoteIdx.map Prod.fst).Nodup) (hb : (b.entries.map Prod.fst).Nodup)
    (hguard : massDeletionGuard localIdx remoteIdx b.entries = false) :
    (∀ f t, (f, t) ∈ detectLocalRenames localIdx remoteIdx b.entries →
      (∃ e l r, alookup b.entries f = some e ∧ alookup localIdx f = none
        ∧ alookup remoteIdx f = some r ∧ e.sha = some r.sha
        ∧ alookup localIdx t = some l ∧ alookup b.entries t = none
        ∧ e.hash = some l.hash ∧ l.hash ≠ "")
      ∧ SyncOp.rename_local f t ∈ (plan localIdx remoteIdx (some b)).1
      ∧ mentionCount (plan localIdx remoteIdx (some b)) f = 1
      ∧ mentionCount (plan localIdx remoteIdx (some b)) t = 1)
    ∧ (∀ f t, (f, t) ∈ detectRemoteRenames localIdx remoteIdx b.entries →
      (∃ e l r', alookup b.entries f = some e ∧ alookup remoteIdx f = none
        ∧ alookup localIdx f = some l ∧ e.hash = some l.hash
        ∧ alookup remoteIdx t = some r' ∧ alookup b.entries t = none
        ∧ alookup localIdx t = none ∧ e.sha = some r'.sha ∧ r'.sha ≠ "")
      ∧ SyncOp.rename_remote f t ∈ (plan localIdx remoteIdx (some b)).1
      ∧ mentionCount (plan localIdx remoteIdx (some b)) f = 1
      ∧ mentionCount (plan localIdx remoteIdx (some b)) t = 1)
    ∧ ((detectLocalRenames localIdx remoteIdx b.entries).map Prod.snd).Nodup
    ∧ ((detectRemoteRenames localIdx remoteIdx b.entries).map Prod.snd).Nodup := by
  have hplan : plan localIdx remoteIdx (some b)
      = planMain localIdx remoteIdx b.entries :=
    plan_guard_false (some b) hguard
  have hLRfst : ((detectLocalRenames localIdx remoteIdx b.entries).map
      Prod.fst).Nodup :=
    List.Nodup.sublist ((matchRenamesAux_fst_sublist
        (localRenameAdded localIdx b.entries)
        (localRenameDeleted localIdx remoteIdx b.entries) []).trans
      (localRenameDeleted_path_sublist localIdx remoteIdx b.entries)) hb
  have hRRfst : ((detectRemoteRenames localIdx remoteIdx b.entries).map
      Prod.fst).Nodup :=
    List.Nodup.sublist ((matchRenamesAux_fst_sublist
        (remoteRenameAdded localIdx remoteIdx b.entries)
        (remoteRenameDeleted localIdx remoteIdx b.entries) []).trans
      (remoteRenameDeleted_path_sublist localIdx remoteIdx b.entries)) hb
  have hLRsnd : ((detectLocalRenames localIdx remoteIdx b.entries).map
      Prod.snd).Nodup :=
    (matchRenamesAux_snd_nodup (localRenameAdded localIdx b.entries)
      (localRenameDeleted localIdx remoteIdx b.entries) []).1
  have hRRsnd : ((detectRemoteRenames localIdx remoteIdx b.entries).map
      Prod.snd).Nodup :=
    (matchRenamesAux_snd_nodup (remoteRenameAdded localIdx remoteIdx b.entries)
      (remoteRenameDeleted localIdx remoteIdx b.entries) []).1
  refine ⟨?_, ?_, hLRsnd, hRRsnd⟩
  · intro f t hpair
    obtain ⟨e, l, r, hbe, hlf, hrf, hsha, hlt, hbt, hhash, hne⟩ :=
      detectLocalRenames_sound hl hb hpair
    refine ⟨⟨e, l, r, hbe, hlf, hrf, hsha, hlt, hbt, hhash, hne⟩, ?_, ?_, ?_⟩
    · rw [hplan]
      exact List.mem_append_left _ (List.mem_append_left _
        (List.mem_map_of_mem _ hpair))
    · -- mention count of the rename source
      rw [hplan, mentionCount_planMain]
      have hmemf : f ∈ (detectLocalRenames localIdx remoteIdx b.entries).map
          Prod.fst := List.mem_map_of_mem Prod.fst hpair
      have hLR1 := countP_pairs_fst_one _ _ SyncOp.rename_local
        (fun _ _ _ => rfl) hLRfst hmemf (fun pr hpr hc => by
          obtain ⟨_, _, _, _, _, _, _, _, hbt', _, _⟩ :=
            detectLocalRenames_sound hl hb
              (show (pr.1, pr.2) ∈ detectLocalRenames localIdx remoteIdx b.entries from hpr)
          rw [hc] at hbt'
          rw [hbt'] at hbe
          cases hbe)
      have hRR0 := countP_pairs_zero (detectRemoteRenames localIdx remoteIdx b.entries)
        f SyncOp.rename_remote (fun _ _ _ => rfl) (fun pr hpr => by
          obtain ⟨_, _, _, _, hrf', _, _, _, hbt', _, _, _⟩ :=
            detectRemoteRenames_sound hr hb
              (show (pr.1, pr.2) ∈ detectRemoteRenames localIdx remoteIdx b.entries from hpr)
          constructor
          · intro hc
            rw [hc] at hrf'
            rw [hrf'] at hrf
            cases hrf
          · intro hc
            rw [hc] at hbt'
            rw [hbt'] at hbe
            cases hbe)
      have hhand : f ∈ planHandled localIdx remoteIdx b.entries :=
        mem_handledPathsOf.mpr ⟨(f, t), List.mem_append_left _ hpair, Or.inl rfl⟩
      rw [hLR1, hRR0, diff_part_zero hhand nonConflictPart
        (fun _ _ => nonConflictPart_some),
        diff_part_zero hhand conflictPart (fun _ _ => conflictPart_some)]
    · -- mention count of the rename destination
      rw [hplan, mentionCount_planMain]
      have hmemt : t ∈ (detectLocalRenames localIdx remoteIdx b.entries).map
          Prod.snd := List.mem_map_of_mem Prod.snd hpair
      have hLR1 := countP_pairs_snd_one _ _ SyncOp.rename_local
        (fun _ _ _ => rfl) hLRsnd hmemt (fun pr hpr hc => by
          obtain ⟨_, _, _, _, hlf', _, _, _, _, _, _⟩ :=
            detectLocalRenames_sound hl hb
              (show (pr.1, pr.2) ∈ detectLocalRenames localIdx remoteIdx b.entries from hpr)
          rw [hc] at hlf'
          rw [hlf'] at hlt
          cases hlt)
      have hRR0 := countP_pairs_zero (detectRemoteRenames localIdx remoteIdx b.entries)
        t SyncOp.rename_remote (fun _ _ _ => rfl) (fun pr hpr => by
          obtain ⟨_, _, _, hbe', _, _, _, _, _, hlt', _⟩ :=
            detectRemoteRenames_sound hr hb
              (show (pr.1, pr.2) ∈ detectRemoteRenames localIdx remoteIdx b.entries from hpr)
          constructor
          · intro hc
            rw [hc] at hbe'
            rw [hbt] at hbe'
            cases hbe'
          · intro hc
            rw [hc] at hlt'
            rw [hlt'] at hlt
            cases hlt)
      have hhand : t ∈ planHandled localIdx remoteIdx b.entries :=
        mem_handledPathsOf.mpr ⟨(f, t), List.mem_append_left _ hpair, Or.inr rfl⟩
      rw [hLR1, hRR0, diff_part_zero hhand nonConflictPart
        (fun _ _ => nonConflictPart_some),
        diff_part_zero hhand conflictPart (fun _ _ => conflictPart_some)]
  · intro f t hpair
    obtain ⟨e, l, r', hbe, hrf, hlf, hhash, hrt, hbt, hlt, hsha, hne⟩ :=
      detectRemoteRenames_sound hr hb hpair
    refine ⟨⟨e, l, r', hbe, hrf, hlf, hhash, hrt, hbt, hlt, hsha, hne⟩, ?_, ?_, ?_⟩
    · rw [hplan]
      exact List.mem_append_left _ (List.mem_append_right _
        (List.mem_map_of_mem _ hpair))
    · rw [hplan, mentionCount_planMain]
      have hmemf : f ∈ (detectRemoteRenames localIdx remoteIdx b.entries).map
          Prod.fst := List.mem_map_of_mem Prod.fst hpair
      have hLR0 := countP_pairs_zero (detectLocalRenames localIdx remoteIdx b.entries)
        f SyncOp.rename_local (fun _ _ _ => rfl) (fun pr hpr => by
          obtain ⟨_, _, _, _, hlf', _, _, _, hbt', _, _⟩ :=
            detectLocalRenames_sound hl hb
              (show (pr.1, pr.2) ∈ detectLocalRenames localIdx remoteIdx b.entries from hpr)
          constructor
          · intro hc
            rw [hc] at hlf'
            rw [hlf'] at hlf
            cases hlf
          · intro hc
            rw [hc] at hbt'
            rw [hbt'] at hbe
            cases hbe)
      have hRR1 := countP_pairs_fst_one _ _ SyncOp.rename_remote
        (fun _ _ _ => rfl) hRRfst hmemf (fun pr hpr hc => by
          obtain ⟨_, _, _, _, _, _, _, _, hbt', _, _, _⟩ :=
            detectRemoteRenames_sound hr hb
              (show (pr.1, pr.2) ∈ detectRemoteRenames localIdx remoteIdx b.entries from hpr)
          rw [hc] at hbt'
          rw [hbt'] at hbe
          cases hbe)
      have hhand : f ∈ planHandled localIdx remoteIdx b.entries :=
        mem_handledPathsOf.mpr ⟨(f, t), List.mem_append_right _ hpair, Or.inl rfl⟩
      rw [hLR0, hRR1, diff_part_zero hhand nonConflictPart
        (fun _ _ => nonConflictPart_some),
        diff_part_zero hhand conflictPart (fun _ _ => conflictPart_some)]
    · rw [hplan, mentionCount_planMain]
      have hmemt : t ∈ (detectRemoteRenames localIdx remoteIdx b.entries).map
          Prod.snd := List.mem_map_of_mem Prod.snd hpair
      have hLR0 := countP_pairs_zero (detectLocalRenames localIdx remoteIdx b.entries)
        t SyncOp.rename_local (fun _ _ _ => rfl) (fun pr hpr => by
          obtain ⟨_, _, _, hbe', _, _, _, hlt', _, _, _⟩ :=
            detectLocalRenames_sound hl hb
              (show (pr.1, pr.2) ∈ detectLocalRenames localIdx remoteIdx b.entries from hpr)
          constructor
          · intro hc
            rw [hc] at hbe'
            rw [hbt] at hbe'
            cases hbe'
          · intro hc
            rw [hc] at hlt'
            rw [hlt'] at hlt
            cases hlt)
      have hRR1 := countP_pairs_snd_one _ _ SyncOp.rename_remote
        (fun _ _ _ => rfl) hRRsnd hmemt (fun pr hpr hc => by
          obtain ⟨_, _, _, hbe', _, _, _, _, _, _, _, _⟩ :=
            detectRemoteRenames_sound hr hb
              (show (pr.1, pr.2) ∈ detectRemoteRenames localIdx remoteIdx b.entries from hpr)
          rw [hc] at hbe'
          rw [hbe'] at hbt
          cases hbt)
      have hhand : t ∈ planHandled localIdx remoteIdx b.entries :=
        mem_handledPathsOf.mpr ⟨(f, t), List.mem_append_right _ hpair, Or.inr rfl⟩
      rw [hLR0, hRR1, diff_part_zero hhand nonConflictPart
        (fun _ _ => nonConflictPart_some),
        diff_part_zero hhand conflictPart (fun _ _ => conflictPart_some)]

/-- Witness for C4 at the spec's rename-symmetry scenario: baseline
`old.md` (hash `h1`, id `s1`), local only `new.md` with hash `h1`, remote
still `old.md` with `s1` — exactly one `rename_local(old.md, new.md)`, each
of the two paths mentioned exactly once in the whole plan. -/
theorem rename_inference_witness :
    SyncOp.rename_local "old.md" "new.md"
      ∈ (plan [("new.md", ⟨"new.md", "h1", 9, 1⟩)] [("old.md", ⟨"old.md", "s1", 0, 2⟩)]
          (some ⟨none, [("old.md", ⟨"old.md", some "h1", some "s1", some 1, some 2⟩)]⟩)).1
    ∧ mentionCount (plan [("new.md", ⟨"new.md", "h1", 9, 1⟩)]
        [("old.md", ⟨"old.md", "s1", 0, 2⟩)]
        (some ⟨none, [("old.md", ⟨"old.md", some "h1", some "s1", some 1, some 2⟩)]⟩))
        "old.md" = 1
    ∧ mentionCount (plan [("new.md", ⟨"new.md", "h1", 9, 1⟩)]
        [("old.md", ⟨"old.md", "s1", 0, 2⟩)]
        (some ⟨none, [("old.md", ⟨"old.md", some "h1", some "s1", some 1, some 2⟩)]⟩))
        "new.md" = 1 := by
  have h := rename_inference [("new.md", ⟨"new.md", "h1", 9, 1⟩)]
    [("old.md", ⟨"old.md", "s1", 0, 2⟩)]
    ⟨none, [("old.md", ⟨"old.md", some "h1", some "s1", some 1, some 2⟩)]⟩
    (by decide) (by decide) (by decide) (by decide)
  obtain ⟨-, h2, h3, h4⟩ := h.1 "old.md" "new.md" (by decide)
  exact ⟨h2, h3, h4⟩

/-! ## C9: keep-both materialization

The collision-probing loop relies on the candidate strings being pairwise
distinct, which reduces to the injectivity of the decimal rendering of the
counter.  We prove `Nat.repr` injective via the decimal value of the
rendered digits. -/

/-- One step of reading a decimal string back into a number. -/
def decStep (acc : Nat) (c : Char) : Nat :=
  acc * 10 + (c.toNat - Char.toNat '0')

lemma digitChar_val : ∀ r, r < 10 → (Nat.digitChar r).toNat - Char.toNat '0' = r := by
  decide

lemma toDigitsCore_foldl :
    ∀ (f n : Nat), n < f → ∀ ds : List Char,
      (Nat.toDigitsCore 10 f n ds).foldl decStep 0 = ds.foldl decStep n := by
  intro f
  induction f with
  | zero => intro n h; exact absurd h (Nat.not_lt_zero n)
  | succ f ih =>
    intro n h ds
    show (if n / 10 = 0 then Nat.digitChar (n % 10) :: ds
      else Nat.toDigitsCore 10 f (n / 10) (Nat.digitChar (n % 10) :: ds)).foldl
        decStep 0 = ds.foldl decStep n
    by_cases h0 : n / 10 = 0
    · rw [if_pos h0, List.foldl_cons]
      have hdm := Nat.div_add_mod n 10
      rw [h0] at hdm
      have hn : n % 10 = n := by omega
      have hstep : decStep 0 (Nat.digitChar (n % 10)) = n := by
        unfold decStep
        rw [digitChar_val (n % 10) (Nat.mod_lt n (by omega))]
        omega
      rw [hstep]
    · rw [if_neg h0]
      have hpos : 0 < n := by
        rcases Nat.eq_zero_or_pos n with rfl | hp
        · exact absurd (by decide : (0 : Nat) / 10 = 0) h0
        · exact hp
      have hlt : n / 10 < f := by
        have := Nat.div_lt_self hpos (by omega : 1 < 10)
        omega
      rw [ih (n / 10) hlt (Nat.digitChar (n % 10) :: ds), List.foldl_cons]
      have hstep : decStep (n / 10) (Nat.digitChar (n % 10)) = n := by
        unfold decStep
        rw [digitChar_val (n % 10) (Nat.mod_lt n (by omega))]
        have := Nat.div_add_mod n 10
        omega
      rw [hstep]

lemma repr_foldl (n : Nat) : (Nat.repr n).data.foldl decStep 0 = n := by
  show (Nat.toDigitsCore 10 (n + 1) n []).foldl decStep 0 = n
  rw [toDigitsCore_foldl (n + 1) n (Nat.lt_succ_self n) []]
  rfl

lemma natRepr_injective : Function.Injective Nat.repr := by
  intro a b h
  have ha := repr_foldl a
  rw [h] at ha
  exact ha.symm.trans (repr_foldl b)

lemma string_data_append (a b : String) : (a ++ b).data = a.data ++ b.data := rfl

lemma string_ext {a b : String} (h : a.data = b.data) : a = b := by
  cases a
  cases b
  cases h
  rfl

lemma conflictCand_zero_data (base ext tag ts : String) :
    (conflictCand base ext tag ts 0).data
      = base.data ++ (" (".data ++ (tag.data ++ ("-".data
          ++ (ts.data ++ (")".data ++ ext.data))))) := by
  show (base ++ " (" ++ tag ++ "-" ++ ts ++ ")" ++ ext).data = _
  simp [string_data_append, List.append_assoc]

lemma conflictCand_pos_data (base ext tag ts : String) (k : Nat) :
    (conflictCand base ext tag ts (k + 1)).data
      = base.data ++ (" (".data ++ (tag.data ++ ("-".data
          ++ (ts.data ++ ("-".data ++ ((Nat.repr (k + 1)).data
            ++ (")".data ++ ext.data))))))) := by
  show (base ++ " (" ++ tag ++ "-"
      ++ (ts ++ "-" ++ (Nat.repr (k + 1) ++ (")" ++ ext)))).data = _
  simp [string_data_append, List.append_assoc]

/-- The candidate strings are pairwise distinct: candidate `0` differs from
every suffixed candidate at the character after the timestamp, and two
suffixed candidates differ in their decimal counter. -/
lemma conflictCand_injective (base ext tag ts : String) :
    Function.Injective (conflictCand base ext tag ts) := by
  have hz : ∀ k, conflictCand base ext tag ts 0 ≠ conflictCand base ext tag ts (k + 1) := by
    intro k h
    have hd := congrArg String.data h
    rw [conflictCand_zero_data, conflictCand_pos_data] at hd
    have h1 := List.append_cancel_left hd
    have h2 := List.append_cancel_left h1
    have h3 := List.append_cancel_left h2
    have h4 := List.append_cancel_left h3
    have h5 := List.append_cancel_left h4
    rw [show (")" : String).data = [')'] from rfl,
      show ("-" : String).data = ['-'] from rfl] at h5
    injection h5 with h6 _
    exact absurd h6 (by decide)
  intro j k h
  match j, k with
  | 0, 0 => rfl
  | 0, k + 1 => exact absurd h (hz k)
  | j + 1, 0 => exact absurd h.symm (hz j)
  | j + 1, k + 1 =>
    have hd := congrArg String.data h
    rw [conflictCand_pos_data, conflictCand_pos_data] at hd
    have h1 := List.append_cancel_left hd
    have h2 := List.append_cancel_left h1
    have h3 := List.append_cancel_left h2
    have h4 := List.append_cancel_left h3
    have h5 := List.append_cancel_left h4
    have h6 := List.append_cancel_left h5
    have h7 := List.append_cancel_right h6
    exact natRepr_injective (string_ext h7)

/-- The probe loop returns the first free candidate at or after its starting
index, provided some candidate within fuel reach is free. -/
lemma probeLoop_spec (vault : List String) (cand : Nat → String) :
    ∀ (fuel k : Nat), (∃ j, j < fuel ∧ cand (k + j) ∉ vault) →
    ∃ i, probeLoop vault cand fuel k = cand (k + i) ∧ cand (k + i) ∉ vault
      ∧ ∀ m < i, cand (k + m) ∈ vault := by
  intro fuel
  induction fuel with
  | zero =>
    rintro k ⟨j, hj, -⟩
    exact absurd hj (Nat.not_lt_zero j)
  | succ fuel ih =>
    rintro k ⟨j, hj, hfree⟩
    by_cases hc : vault.contains (cand k) = true
    · have hj0 : j ≠ 0 := by
        rintro rfl
        rw [Nat.add_zero] at hfree
        exact hfree (contains_iff_mem.mp hc)
      obtain ⟨i, hi1, hi2, hi3⟩ := ih (k + 1) ⟨j - 1, by omega, by
        rw [show k + 1 + (j - 1) = k + j by omega]
        exact hfree⟩
      refine ⟨i + 1, ?_, ?_, ?_⟩
      · rw [show probeLoop vault cand (fuel + 1) k
            = probeLoop vault cand fuel (k + 1) from by
          show (if vault.contains (cand k) = true then _ else _) = _
          rw [if_pos hc]]
        rw [hi1]
        rw [show k + 1 + i = k + (i + 1) by omega]
      · rw [show k + (i + 1) = k + 1 + i by omega]
        exact hi2
      · intro m hm
        cases m with
        | zero =>
          rw [Nat.add_zero]
          exact contains_iff_mem.mp hc
        | succ m' =>
          rw [show k + (m' + 1) = k + 1 + m' by omega]
          exact hi3 m' (by omega)
    · refine ⟨0, ?_, ?_, ?_⟩
      · show (if vault.contains (cand k) = true then _ else _) = cand (k + 0)
        rw [if_neg hc, Nat.add_zero]
      · rw [Nat.add_zero]
        intro hmem
        exact hc (contains_iff_mem.mpr hmem)
      · intro m hm
        omega

/-- Pigeonhole: among the first `vault.length + 1` candidates some candidate
is free. -/
lemma exists_free_cand (vault : List String) (base ext tag ts : String) :
    ∃ j, j < vault.length + 1 ∧ conflictCand base ext tag ts j ∉ vault := by
  by_contra hcon
  push_neg at hcon
  have hsub : ((List.range (vault.length + 1)).map (conflictCand base ext tag ts))
      ⊆ vault := by
    intro x hx
    obtain ⟨j, hj, rfl⟩ := List.mem_map.mp hx
    exact hcon j (List.mem_range.mp hj)
  have hnd : ((List.range (vault.length + 1)).map
      (conflictCand base ext tag ts)).Nodup :=
    (List.nodup_range _).map (conflictCand_injective base ext tag ts)
  have hlen := (List.subperm_of_subset hnd hsub).length_le
  rw [List.length_map, List.length_range] at hlen
  omega

/-- `nextConflictPath` returns the first free candidate: it names no
existing file, and every earlier candidate in the probe sequence is an
existing path. -/
lemma nextConflictPath_spec (vault : List String) (path tag : String)
    (now : DateParts) :
    ∃ k, nextConflictPath vault path tag now
        = conflictCand (conflictBase path) (conflictExt path) tag
            (formatTimestamp now) k
      ∧ nextConflictPath vault path tag now ∉ vault
      ∧ ∀ m < k, conflictCand (conflictBase path) (conflictExt path) tag
          (formatTimestamp now) m ∈ vault := by
  obtain ⟨j, hj, hfree⟩ := exists_free_cand vault (conflictBase path)
    (conflictExt path) tag (formatTimestamp now)
  obtain ⟨i, h1, h2, h3⟩ := probeLoop_spec vault
    (conflictCand (conflictBase path) (conflictExt path) tag (formatTimestamp now))
    (vault.length + 1) 0 ⟨j, hj, by rw [Nat.zero_add]; exact hfree⟩
  rw [Nat.zero_add] at h1 h2
  refine ⟨i, h1, ?_, ?_⟩
  · show probeLoop vault _ (vault.length + 1) 0 ∉ vault
    rw [show probeLoop vault
        (conflictCand (conflictBase path) (conflictExt path) tag
          (formatTimestamp now)) (vault.length + 1) 0
      = conflictCand (conflictBase path) (conflictExt path) tag
          (formatTimestamp now) i from h1]
    exact h2
  · intro m hm
    have := h3 m hm
    rwa [Nat.zero_add] at this

lemma applyKeepBoth_modify_modify (v : Vault) (fetch : String → Option String)
    (now : DateParts) (path c : String) (hf : fetch path = some c) :
    applyKeepBothConflicts [.conflict path "modify-modify"] fetch now v
      = some (v ++ [(nextConflictPath (vaultPaths v) path "conflict-remote" now, c)]) := by
  simp only [applyKeepBothConflicts]
  rw [show (("modify-modify" : String) == "delete-modify-local") = false from by decide]
  rw [show (("modify-modify" : String) == "modify-modify") = true from by decide]
  simp only [Bool.false_eq_true, if_false, if_true]
  rw [hf]

lemma applyKeepBoth_delete_modify_local (v : Vault)
    (fetch : String → Option String) (now : DateParts) (path c : String)
    (hf : fetch path = some c) :
    applyKeepBothConflicts [.conflict path "delete-modify-local"] fetch now v
      = some (v ++ [(nextConflictPath (vaultPaths v) path "conflict-local" now, c)]) := by
  simp only [applyKeepBothConflicts]
  rw [show (("delete-modify-local" : String) == "delete-modify-local") = true from by decide]
  rw [show (("delete-modify-local" : String) == "modify-modify") = false from by decide]
  simp only [Bool.false_eq_true, if_false, if_true]
  rw [hf]

lemma applyKeepBoth_delete_modify_remote (v : Vault)
    (fetch : String → Option String) (now : DateParts) (path c : String)
    (hc : alookup v path = some c) :
    applyKeepBothConflicts [.conflict path "delete-modify-remote"] fetch now v
      = some (v ++ [(nextConflictPath (vaultPaths v) path "conflict-remote" now, c)]) := by
  simp only [applyKeepBothConflicts]
  rw [show (("delete-modify-remote" : String) == "delete-modify-local") = false from by decide]
  rw [show (("delete-modify-remote" : String) == "modify-modify") = false from by decide]
  rw [show (("delete-modify-remote" : String) == "delete-modify-remote") = true from by decide]
  rw [show (("delete-modify-remote" : String) == "local-missing-remote") = false from by decide]
  simp only [Bool.false_eq_true, if_false, if_true]
  rw [hc]

lemma applyKeepBoth_local_missing_remote (v : Vault)
    (fetch : String → Option String) (now : DateParts) (path c : String)
    (hf : fetch path = some c) :
    applyKeepBothConflicts [.conflict path "local-missing-remote"] fetch now v
      = some (if containsKey v path then vaultModify v path c
          else v ++ [(path, c)]) := by
  simp only [applyKeepBothConflicts]
  rw [show (("local-missing-remote" : String) == "delete-modify-local") = false from by decide]
  rw [show (("local-missing-remote" : String) == "modify-modify") = false from by decide]
  rw [show (("local-missing-remote" : String) == "delete-modify-remote") = false from by decide]
  rw [show (("local-missing-remote" : String) == "local-missing-remote") = true from by decide]
  simp only [Bool.false_eq_true, if_false, if_true]
  rw [hf]

/-- C9.  Keep-both materialization: the sibling path is the first free
candidate of the sequence `base (tag-YYYYMMDD-HHMM)ext`,
`base (tag-YYYYMMDD-HHMM-1)ext`, `base (tag-YYYYMMDD-HHMM-2)ext`, … — so it
never names an existing file and every earlier candidate was taken.  By
reason: `modify-modify` and `delete-modify-local` write the fetched remote
bytes to the sibling, leaving every existing vault entry untouched
(append-only); `delete-modify-remote` copies the local bytes to the
sibling; `local-missing-remote` creates no sibling and restores the remote
bytes at the original path. -/
theorem keep_both_materialization :
    (∀ (vault : List String) (path tag : String) (now : DateParts),
      ∃ k, nextConflictPath vault path tag now
          = conflictCand (conflictBase path) (conflictExt path) tag
              (formatTimestamp now) k
        ∧ nextConflictPath vault path tag now ∉ vault
        ∧ ∀ m < k, conflictCand (conflictBase path) (conflictExt path) tag
            (formatTimestamp now) m ∈ vault)
    ∧ (∀ (v : Vault) (fetch : String → Option String) (now : DateParts)
        (path c : String), fetch path = some c →
      applyKeepBothConflicts [.conflict path "modify-modify"] fetch now v
        = some (v ++ [(nextConflictPath (vaultPaths v) path "conflict-remote" now, c)]))
    ∧ (∀ (v : Vault) (fetch : String → Option String) (now : DateParts)
        (path c : String), fetch path = some c →
      applyKeepBothConflicts [.conflict path "delete-modify-local"] fetch now v
        = some (v ++ [(nextConflictPath (vaultPaths v) path "conflict-local" now, c)]))
    ∧ (∀ (v : Vault) (fetch : String → Option String) (now : DateParts)
        (path c : String), alookup v path = some c →
      applyKeepBothConflicts [.conflict path "delete-modify-remote"] fetch now v
        = some (v ++ [(nextConflictPath (vaultPaths v) path "conflict-remote" now, c)]))
    ∧ (∀ (v : Vault) (fetch : String → Option String) (now : DateParts)
        (path c : String), fetch path = some c →
      applyKeepBothConflicts [.conflict path "local-missing-remote"] fetch now v
        = some (if containsKey v path then vaultModify v path c
            else v ++ [(path, c)])) :=
  ⟨nextConflictPath_spec, applyKeepBoth_modify_modify,
    applyKeepBoth_delete_modify_local, applyKeepBoth_delete_modify_remote,
    applyKeepBoth_local_missing_remote⟩

/-- Witness for C9 at the spec's end-to-end example: local `note.md` with
bytes `A`, remote bytes `B`, January 1st 2024 00:00 — the sibling is
`note (conflict-remote-20240101-0000).md` and the original is untouched. -/
theorem keep_both_materialization_witness :
    nextConflictPath ["note.md"] "note.md" "conflict-remote"
        ⟨2024, 0, 1, 0, 0⟩ ∉ ["note.md"]
    ∧ applyKeepBothConflicts [.conflict "note.md" "modify-modify"]
        (fun p => if p = "note.md" then some "B" else none)
        ⟨2024, 0, 1, 0, 0⟩ [("note.md", "A")]
      = some [("note.md", "A"),
              ("note (conflict-remote-20240101-0000).md", "B")] := by
  have h := keep_both_materialization
  obtain ⟨k, -, hk2, -⟩ := h.1 ["note.md"] "note.md" "conflict-remote"
    ⟨2024, 0, 1, 0, 0⟩
  refine ⟨hk2, ?_⟩
  have h2 := h.2.1 [("note.md", "A")]
    (fun p => if p = "note.md" then some "B" else none)
    ⟨2024, 0, 1, 0, 0⟩ "note.md" "B" (by decide)
  exact h2.trans (by decide)

end GHSync
